import Mathlib

/-! # Theater seat booking: a verification development

A shallow embedding of `assignment-5.c` (a 5 x 12 theater whose seats are
guarded by one mutex each, booked all-or-nothing by `try_book_seats`) and
proofs about it.

* C `int` values that are only compared, copied and stored (customer ids,
  seat coordinates, grid cells) are `Int`; the one place where arithmetic
  is done on them (`atoi` and `aisle - 1` in the parser) wraps to 32 bits
  explicitly.
* `theater[ROWS][COLS]` is a function on `Seat = Fin ROWS × Fin COLS`;
  `theater[a][s]` is written `theater (a, s)`.
* `seat_mutexes[ROWS][COLS]` is a function giving, for each seat, the id of
  the thread that holds its mutex (`none` when the mutex is free).
* An operation whose behaviour C leaves undefined (unlocking a mutex the
  caller does not hold, indexing the grid out of bounds) returns `none`.
* `try_book_seats` is given twice: as a function from the state before an
  uninterrupted call to the state after it, and as a transition system with
  one step per shared-memory access, for interleaved workers.  The second
  run alone computes the first (`runWorker_try_book_seats`).
-/

namespace Theater

/-! ## Constants (lines 8-13) -/

abbrev MAX_CUSTOMERS : Nat := 50
abbrev MAX_SEATS : Nat := 60
abbrev MAX_SEATS_PER_REQUEST : Nat := 60
abbrev MAX_LINES : Nat := 1024
abbrev ROWS : Nat := 5
abbrev COLS : Nat := 12

/-! ## Data model (lines 19-29) -/

/-- A customer's booking request.  `num_seats` of the C struct is the length
of `seats`; `seats[i]` is the pair `[aisle, seat]`. -/
structure BookingRequest where
  customer_id : Int
  seats : List (Int × Int)
  deriving DecidableEq, Repr

/-- The field `num_seats` of the C struct. -/
def BookingRequest.num_seats (r : BookingRequest) : Nat := r.seats.length

/-- A valid index pair into `theater` and `seat_mutexes`. -/
abbrev Seat := Fin ROWS × Fin COLS

/-- The global `int theater[ROWS][COLS]`. -/
abbrev Grid := Seat → Int

/-- The global `pthread_mutex_t seat_mutexes[ROWS][COLS]`: the holder of each
mutex, `none` when it is free. -/
abbrev Mutexes := Seat → Option Nat

/-- The shared state read and written by `try_book_seats`. -/
structure Shared where
  theater : Grid
  seat_mutexes : Mutexes

/-- The grid `int theater[ROWS][COLS] = {0}` of line 27. -/
def emptyTheater : Grid := fun _ => 0

/-- All mutexes free, as after the initialisation loop of lines 51-55. -/
def freeMutexes : Mutexes := fun _ => none

/-- The shared state when the workers start. -/
def initShared : Shared := ⟨emptyTheater, freeMutexes⟩

/-! ## Coordinates -/

/-- The validation condition of line 176:
`aisle < 0 || aisle >= ROWS || seat < 0 || seat >= COLS`. -/
def outOfRange (p : Int × Int) : Prop :=
  p.1 < 0 ∨ p.1 ≥ (ROWS : Int) ∨ p.2 < 0 ∨ p.2 ≥ (COLS : Int)

instance (p : Int × Int) : Decidable (outOfRange p) := by
  unfold outOfRange; infer_instance

/-- The array cell addressed by `[aisle][seat]`; `none` exactly when the
validation condition of line 176 holds (see `seatOf_eq_none_iff`). -/
def seatOf (p : Int × Int) : Option Seat :=
  if h : outOfRange p then none
  else some (⟨p.1.toNat, by unfold outOfRange at h; omega⟩,
             ⟨p.2.toNat, by unfold outOfRange at h; omega⟩)

/-! ## Mutex primitives -/

/-- Model of `pthread_mutex_trylock` on a default (non-recursive) mutex called by thread `tid`:
it succeeds only when the mutex is free; `none` is the non-zero (EBUSY)
return, also when the caller itself holds the mutex. -/
def pthread_mutex_trylock (tid : Nat) (m : Mutexes) (s : Seat) : Option Mutexes :=
  if m s = none then some (Function.update m s (some tid)) else none

/-- Model of `pthread_mutex_unlock` called by thread `tid`: defined only when `tid`
holds the mutex; `none` is the undefined unlock of a mutex the caller does
not hold. -/
def pthread_mutex_unlock (tid : Nat) (m : Mutexes) (s : Seat) : Option Mutexes :=
  if m s = some tid then some (Function.update m s none) else none

/-- Lines 223-227: unlock `locks[0] .. locks[num_locks-1]` in index order. -/
def release_locks (tid : Nat) : Mutexes → List Seat → Option Mutexes
  | m, [] => some m
  | m, s :: rest =>
    match pthread_mutex_unlock tid m s with
    | none => none
    | some m1 => release_locks tid m1 rest

/-! ## `try_book_seats` (lines 166-215) -/

/-- How the acquisition loop of lines 171-199 ends: with an early `return 0`
(after the releases done on that path), or by running off the end of the
request with the array `locks` filled. -/
inductive Acquired where
  | failed (m : Mutexes)
  | held (m : Mutexes) (locks : List Seat)

/-- The loop of lines 171-199 from iteration `i` on: the argument list is
`seats[i..num_seats)`, `m` the mutexes and `locks` the array
`locks[0..num_locks)` at that point. -/
def acquireLoop (tid : Nat) (theater : Grid) :
    List (Int × Int) → Mutexes → List Seat → Option Acquired
  | [], m, locks => some (Acquired.held m locks)
  | p :: rest, m, locks =>
    match seatOf p with
    | none =>
      -- lines 176-179
      (release_locks tid m locks).map Acquired.failed
    | some s =>
      match pthread_mutex_trylock tid m s with
      | none =>
        -- lines 182-186
        (release_locks tid m locks).map Acquired.failed
      | some m1 =>
        if theater s ≠ 0 then
          -- lines 189-193
          match pthread_mutex_unlock tid m1 s with
          | none => none
          | some m2 => (release_locks tid m2 locks).map Acquired.failed
        else
          -- lines 196-198
          acquireLoop tid theater rest m1 (locks ++ [s])

/-- The loop of lines 206-210: `theater[aisle][seat] = customer_id` for every
seat of the request, in order; `none` is a write outside the array. -/
def bookLoop (customer_id : Int) : List (Int × Int) → Grid → Option Grid
  | [], th => some th
  | p :: rest, th =>
    match seatOf p with
    | none => none
    | some s => bookLoop customer_id rest (Function.update th s customer_id)

/-- The function `try_book_seats` run by thread `tid` without interference: the
return value and the shared state after the call.  The `sleep` of line 203
changes no state. -/
def try_book_seats (tid : Nat) (st : Shared) (request : BookingRequest) :
    Option (Int × Shared) :=
  match acquireLoop tid st.theater request.seats st.seat_mutexes [] with
  | none => none
  | some (Acquired.failed m) => some (0, ⟨st.theater, m⟩)
  | some (Acquired.held m locks) =>
    match bookLoop request.customer_id request.seats st.theater with
    | none => none
    | some th =>
      match release_locks tid m locks with
      | none => none
      | some m1 => some (1, ⟨th, m1⟩)

/-- Calls of `try_book_seats` made one after another, each job being a thread
id and the request that thread handles (thread `i` handles `requests[i]`,
lines 103-106 and 134-135): the return values in processing order and the
final shared state. -/
def runSequential : Shared → List (Nat × BookingRequest) → Option (List Int × Shared)
  | st, [] => some ([], st)
  | st, j :: rest =>
    match try_book_seats j.1 st j.2 with
    | none => none
    | some (ret, st1) =>
      match runSequential st1 rest with
      | none => none
      | some (rets, st2) => some (ret :: rets, st2)

/-! ## `try_book_seats` as a transition system, for interleaved workers

One step of a worker is one access to shared memory (a trylock, a read of a
grid cell, a write of a grid cell, an unlock) or one local test; the workers
of `main` (lines 103-106) run these steps in any interleaving. -/

/-- Program points of `try_book_seats`. -/
inductive Pc where
  /-- line 171, about to test `i < num_seats` and validate seat `i` (lines 172-179) -/
  | loopHead (i : Nat)
  /-- line 182, about to call `pthread_mutex_trylock` for seat `i` -/
  | trylock (i : Nat)
  /-- line 189, about to read `theater[aisle][seat]` for seat `i` -/
  | check (i : Nat)
  /-- line 190, about to unlock the mutex just acquired for seat `i` -/
  | unlockCur (i : Nat)
  /-- line 206 (after the sleep of line 203), about to test `i < num_seats` and write seat `i` -/
  | book (i : Nat)
  /-- line 224 inside `release_locks`, about to test `j < num_locks` and unlock `locks[j]`;
  `ret` is the value returned afterwards -/
  | release (j : Nat) (ret : Int)
  /-- returned `ret` -/
  | done (ret : Int)
  /-- an operation without defined behaviour was executed -/
  | undefined
  deriving DecidableEq, Repr

/-- A worker thread inside `try_book_seats`: its thread id, its request, its
program point and its local array `locks[0..num_locks)`. -/
structure Worker where
  tid : Nat
  request : BookingRequest
  pc : Pc
  locks : List Seat

/-- The cell addressed by `request->seats[i]`, when `i < num_seats` and the
coordinates are in range. -/
def Worker.seatAt (w : Worker) (i : Nat) : Option Seat :=
  match w.request.seats[i]? with
  | none => none
  | some p => seatOf p

/-- One step of worker `w` on the shared state `sh`. -/
def stepWorker (sh : Shared) (w : Worker) : Shared × Worker :=
  match w.pc with
  | Pc.loopHead i =>
    match w.request.seats[i]? with
    | none => (sh, { w with pc := Pc.book 0 })
    | some p =>
      if outOfRange p then (sh, { w with pc := Pc.release 0 0 })
      else (sh, { w with pc := Pc.trylock i })
  | Pc.trylock i =>
    match w.seatAt i with
    | none => (sh, { w with pc := Pc.undefined })
    | some s =>
      match pthread_mutex_trylock w.tid sh.seat_mutexes s with
      | none => (sh, { w with pc := Pc.release 0 0 })
      | some m => (⟨sh.theater, m⟩, { w with pc := Pc.check i })
  | Pc.check i =>
    match w.seatAt i with
    | none => (sh, { w with pc := Pc.undefined })
    | some s =>
      if sh.theater s ≠ 0 then (sh, { w with pc := Pc.unlockCur i })
      else (sh, { w with pc := Pc.loopHead (i + 1), locks := w.locks ++ [s] })
  | Pc.unlockCur i =>
    match w.seatAt i with
    | none => (sh, { w with pc := Pc.undefined })
    | some s =>
      match pthread_mutex_unlock w.tid sh.seat_mutexes s with
      | none => (sh, { w with pc := Pc.undefined })
      | some m => (⟨sh.theater, m⟩, { w with pc := Pc.release 0 0 })
  | Pc.book i =>
    match w.request.seats[i]? with
    | none => (sh, { w with pc := Pc.release 0 1 })
    | some p =>
      match seatOf p with
      | none => (sh, { w with pc := Pc.undefined })
      | some s =>
        (⟨Function.update sh.theater s w.request.customer_id, sh.seat_mutexes⟩,
          { w with pc := Pc.book (i + 1) })
  | Pc.release j ret =>
    match w.locks[j]? with
    | none => (sh, { w with pc := Pc.done ret })
    | some s =>
      match pthread_mutex_unlock w.tid sh.seat_mutexes s with
      | none => (sh, { w with pc := Pc.undefined })
      | some m => (⟨sh.theater, m⟩, { w with pc := Pc.release (j + 1) ret })
  | Pc.done _ => (sh, w)
  | Pc.undefined => (sh, w)

/-- A worker run alone for `n` steps. -/
def runWorker : Nat → Shared → Worker → Shared × Worker
  | 0, sh, w => (sh, w)
  | n + 1, sh, w => runWorker n (stepWorker sh w).1 (stepWorker sh w).2

/-- A worker entering `try_book_seats` (lines 167-168: `num_locks = 0`). -/
def startWorker (tid : Nat) (request : BookingRequest) : Worker :=
  ⟨tid, request, Pc.loopHead 0, []⟩

/-- Two workers sharing the grid and the mutexes. -/
structure Race where
  shared : Shared
  a : Worker
  b : Worker

/-- One step of the race: worker `a` moves when `first` is true, worker `b`
otherwise.  A worker that has returned does not move. -/
def stepRace (first : Bool) (r : Race) : Race :=
  if first then ⟨(stepWorker r.shared r.a).1, (stepWorker r.shared r.a).2, r.b⟩
  else ⟨(stepWorker r.shared r.b).1, r.a, (stepWorker r.shared r.b).2⟩

/-- The race run along a schedule (an interleaving of the two workers). -/
def runRace : List Bool → Race → Race
  | [], r => r
  | x :: xs, r => runRace xs (stepRace x r)

/-- Threads 0 and 1 started on requests `r1` and `r2` (lines 103-106) on the
empty grid with all mutexes free. -/
def startRace (r1 r2 : BookingRequest) : Race :=
  ⟨initShared, startWorker 0 r1, startWorker 1 r2⟩

/-- The twelve states a worker whose request names one in-range seat passes
through, in the order of the code: `p0` at line 171, `p1` at the trylock,
`p2` at the occupancy check, `u` at the unlock of line 190, `p3` back at
line 171, `b0` and `b1` in the commit loop before and after the write, `r0`
and `r1` in the final `release_locks` before and after the unlock, `d1`
returned 1, `f` in the `release_locks` of a failure path, `d0` returned 0. -/
inductive Phase where
  | p0 | p1 | p2 | u | p3 | b0 | b1 | r0 | r1 | d1 | f | d0
  deriving DecidableEq, Repr

/-- The phases in which the worker holds the seat's mutex. -/
def Phase.holding : Phase → Bool
  | Phase.p2 | Phase.u | Phase.p3 | Phase.b0 | Phase.b1 | Phase.r0 => true
  | _ => false

/-- The phases in which the worker has written its id to the seat. -/
def Phase.committed : Phase → Bool
  | Phase.b1 | Phase.r0 | Phase.r1 | Phase.d1 => true
  | _ => false

/-- The next phase of a worker, given the phase of the other worker. -/
def Phase.next (me other : Phase) : Phase :=
  match me with
  | Phase.p0 => Phase.p1
  | Phase.p1 => if other.holding then Phase.f else Phase.p2
  | Phase.p2 => if other.committed then Phase.u else Phase.p3
  | Phase.u => Phase.f
  | Phase.p3 => Phase.b0
  | Phase.b0 => Phase.b1
  | Phase.b1 => Phase.r0
  | Phase.r0 => Phase.r1
  | Phase.r1 => Phase.d1
  | Phase.d1 => Phase.d1
  | Phase.f => Phase.d0
  | Phase.d0 => Phase.d0

/-- An upper bound on the number of steps a worker in this phase still takes. -/
def Phase.rank : Phase → Nat
  | Phase.p0 => 8 | Phase.p1 => 7 | Phase.p2 => 6 | Phase.p3 => 5 | Phase.b0 => 4
  | Phase.b1 => 3 | Phase.r0 => 2 | Phase.r1 => 1 | Phase.d1 => 0
  | Phase.u => 2 | Phase.f => 1 | Phase.d0 => 0

/-- Constraint that the phase `me` puts on the phase of the other worker. -/
def Phase.allows (me other : Phase) : Bool :=
  match me with
  | Phase.p0 | Phase.p1 =>
    !(other == Phase.f || other == Phase.d0 || other == Phase.u)
  | Phase.p2 => !other.holding
  | Phase.u => other == Phase.r1 || other == Phase.d1
  | Phase.p3 | Phase.b0 | Phase.b1 | Phase.r0 => !other.holding && !other.committed
  | Phase.r1 | Phase.d1 => !other.committed && !(other == Phase.p3 || other == Phase.b0)
  | Phase.f | Phase.d0 =>
    !(other == Phase.p0 || other == Phase.p1 || other == Phase.u || other == Phase.f
      || other == Phase.d0)

/-- The pairs of phases that occur in a race for one seat. -/
def Phase.compatible (x y : Phase) : Bool := x.allows y && y.allows x

/-- The worker state of a phase, for thread `t` with customer id `c` whose
request names the coordinate `p` of seat `s`. -/
def phaseWorker (t : Nat) (c : Int) (p : Int × Int) (s : Seat) : Phase → Worker
  | Phase.p0 => ⟨t, ⟨c, [p]⟩, Pc.loopHead 0, []⟩
  | Phase.p1 => ⟨t, ⟨c, [p]⟩, Pc.trylock 0, []⟩
  | Phase.p2 => ⟨t, ⟨c, [p]⟩, Pc.check 0, []⟩
  | Phase.u => ⟨t, ⟨c, [p]⟩, Pc.unlockCur 0, []⟩
  | Phase.p3 => ⟨t, ⟨c, [p]⟩, Pc.loopHead 1, [s]⟩
  | Phase.b0 => ⟨t, ⟨c, [p]⟩, Pc.book 0, [s]⟩
  | Phase.b1 => ⟨t, ⟨c, [p]⟩, Pc.book 1, [s]⟩
  | Phase.r0 => ⟨t, ⟨c, [p]⟩, Pc.release 0 1, [s]⟩
  | Phase.r1 => ⟨t, ⟨c, [p]⟩, Pc.release 1 1, [s]⟩
  | Phase.d1 => ⟨t, ⟨c, [p]⟩, Pc.done 1, [s]⟩
  | Phase.f => ⟨t, ⟨c, [p]⟩, Pc.release 0 0, []⟩
  | Phase.d0 => ⟨t, ⟨c, [p]⟩, Pc.done 0, []⟩

/-- The shared state of a race for seat `s` between customers `c1` (thread 0)
and `c2` (thread 1) in phases `x` and `y`. -/
def phaseShared (c1 c2 : Int) (s : Seat) (x y : Phase) : Shared :=
  ⟨fun cell => if cell = s then
      (if x.committed then c1 else if y.committed then c2 else 0) else 0,
   fun cell => if cell = s then
      (if x.holding then some 0 else if y.holding then some 1 else none) else none⟩

/-- The state of the race for seat `s` in phases `x` and `y`. -/
def phaseRace (c1 c2 : Int) (p : Int × Int) (s : Seat) (x y : Phase) : Race :=
  ⟨phaseShared c1 c2 s x y, phaseWorker 0 c1 p s x, phaseWorker 1 c2 p s y⟩

/-- The phases after a schedule. -/
def phaseRun : List Bool → Phase × Phase → Phase × Phase
  | [], q => q
  | true :: xs, q => phaseRun xs (q.1.next q.2, q.2)
  | false :: xs, q => phaseRun xs (q.1, q.2.next q.1)

/-! ## The input loop of `main` (lines 64-96)

The file is a list of characters.  The library functions are modelled after
the C standard: `fgets`, `strchr` (through `takeWhile`), `strtok`, `atoi`. -/

/-- Conversion of a mathematical integer to a 32-bit `int` (two's complement). -/
def wrap32 (x : Int) : Int := (x + 2147483648) % 4294967296 - 2147483648

/-- `isspace` in the C locale. -/
def isspace (c : Char) : Bool :=
  c == ' ' || c == '\t' || c == '\n' || c == Char.ofNat 11 || c == Char.ofNat 12 || c == '\r'

/-- The digits read by `atoi`: the value of the longest prefix of decimal
digits, accumulated on `acc`. -/
def atoiDigits : List Char → Nat → Nat
  | [], acc => acc
  | c :: cs, acc => if c.isDigit then atoiDigits cs (10 * acc + (c.toNat - 48)) else acc

/-- Model of `atoi`: skip white space, read an optional sign, read decimal digits.
A value outside the range of `int` (undefined in C) is wrapped to 32 bits. -/
def atoi (s : List Char) : Int :=
  match s.dropWhile isspace with
  | [] => 0
  | c :: cs =>
    if c = '-' then wrap32 (-(atoiDigits cs 0 : Int))
    else if c = '+' then wrap32 (atoiDigits cs 0 : Int)
    else wrap32 (atoiDigits (c :: cs) 0 : Int)

/-- Model of `strtok` on the rest `s` of the string being tokenised: skip
delimiters; `none` (NULL) when nothing is left; otherwise the token up to the
next delimiter and the rest after that delimiter (the saved position). -/
def strtok (delims : List Char) (s : List Char) : Option (List Char × List Char) :=
  match s.dropWhile (fun c => decide (c ∈ delims)) with
  | [] => none
  | c :: cs =>
    some ((c :: cs).takeWhile (fun c => !decide (c ∈ delims)),
          ((c :: cs).dropWhile (fun c => !decide (c ∈ delims))).tail)

/-- The characters `fgets` stores when it may store at most `n` of them: up to and
including the first newline; with them, the rest of the file. -/
def readLine : Nat → List Char → List Char × List Char
  | 0, input => ([], input)
  | _ + 1, [] => ([], [])
  | n + 1, c :: rest =>
    if c = '\n' then ([c], rest) else ((readLine n rest).1.cons c, (readLine n rest).2)

/-- Model of `fgets(line, size, file)` on the unread part of the file: `none` (NULL) at
end of file, otherwise the buffer contents and the unread rest. -/
def fgets (size : Nat) (input : List Char) : Option (List Char × List Char) :=
  match input with
  | [] => none
  | _ :: _ => some (readLine (size - 1) input)

/-- The delimiters `", \n"` of line 80 and line 82. -/
def seatDelims : List Char := [',', ' ', '\n']

/-- The loop of lines 80-90, with `budget = MAX_SEATS_PER_REQUEST - num_seats`
iterations left before the test `req->num_seats < MAX_SEATS_PER_REQUEST`
fails; `rest` is the position saved by `strtok` and `seats` is
`req->seats[0..num_seats)`.  The subtractions of lines 87-88 are 32-bit. -/
def seatLoop : Nat → List Char → List (Int × Int) → List (Int × Int)
  | 0, _, seats => seats
  | budget + 1, rest, seats =>
    match strtok seatDelims rest with
    | none => seats
    | some (token, rest1) =>
      match strtok seatDelims rest1 with
      | none => seats
      | some (token2, rest2) =>
        seatLoop budget rest2
          (seats ++ [(wrap32 (atoi token - 1), wrap32 (atoi token2 - 1))])

/-- The body of the `while` loop (lines 66-95) on the buffer `line` filled by
`fgets`; `reqs` is `requests[0..num_requests)`.  `none` is the write to
`requests[num_requests]` outside the array (lines 72-73). -/
def processLine (line : List Char) (reqs : List BookingRequest) :
    Option (List BookingRequest) :=
  if line.head? = some '#' ∨ line.head? = some '\n' then some reqs
  else if MAX_LINES ≤ reqs.length then none
  else
    -- the C string in the buffer, cut at the first '#' (lines 69-70)
    let text := ((line.takeWhile (fun c => c != Char.ofNat 0)).takeWhile (fun c => c != '#'))
    match strtok [','] text with
    | none => some reqs
    | some (token, rest) =>
      let seats := seatLoop MAX_SEATS_PER_REQUEST rest []
      if seats.length > 0 then some (reqs ++ [⟨atoi token, seats⟩]) else some reqs

/-- The loop `while (fgets(line, sizeof(line), file))` of line 65, run for at most
`fuel` iterations on the unread part `input` of the file.  `none` is an
undefined write or exhausted fuel (see `readLoop_fuel`: the length of the
input is always enough fuel). -/
def readLoop : Nat → List Char → List BookingRequest → Option (List BookingRequest)
  | 0, input, reqs => if input = [] then some reqs else none
  | fuel + 1, input, reqs =>
    match fgets 256 input with
    | none => some reqs
    | some (line, rest) =>
      match processLine line reqs with
      | none => none
      | some reqs1 => readLoop fuel rest reqs1

/-- The requests stored by lines 64-96 for the file contents `input`
(`requests[0..num_requests)`). -/
def parseInput (input : List Char) : Option (List BookingRequest) :=
  readLoop input.length input []

/-- The indices `i` used on `threads[i]` and `thread_ids[i]` by the loops of
lines 103-111, for the stored requests. -/
def threadIndices (reqs : List BookingRequest) : List Nat := List.range reqs.length

/-! ## Input lines of the form `id,a1,s1,...,an,sn` -/

/-- A decimal numeral: an optional minus sign and a string of decimal digits
(most significant first). -/
structure Numeral where
  neg : Bool
  digits : List Nat

/-- The numeral has at least one digit and every digit is below 10. -/
def Numeral.WF (n : Numeral) : Prop := n.digits ≠ [] ∧ ∀ d ∈ n.digits, d < 10

/-- The character of a decimal digit. -/
def digitChar (d : Nat) : Char := Char.ofNat (48 + d)

/-- The characters of the numeral. -/
def Numeral.text (n : Numeral) : List Char :=
  (if n.neg then ['-'] else []) ++ n.digits.map digitChar

/-- The natural number written by the digits. -/
def Numeral.magnitude (n : Numeral) : Nat := n.digits.foldl (fun acc d => 10 * acc + d) 0

/-- The integer the numeral denotes. -/
def Numeral.value (n : Numeral) : Int :=
  if n.neg then -(n.magnitude : Int) else (n.magnitude : Int)

/-- The value fits a 32-bit `int`. -/
def Numeral.fitsInt (n : Numeral) : Prop := -2147483648 ≤ n.value ∧ n.value ≤ 2147483647

/-- A string of `k` spaces. -/
def spaces (k : Nat) : List Char := List.replicate k ' '

/-- A separator: a comma with `k1` spaces before it and `k2` spaces after it. -/
def sepText (k1 k2 : Nat) : List Char := spaces k1 ++ ',' :: spaces k2

/-- One group `,a,s` of an input line: the two numerals and the numbers of
spaces around the two commas. -/
structure SeatText where
  before1 : Nat
  after1 : Nat
  aisle : Numeral
  before2 : Nat
  after2 : Nat
  seat : Numeral

/-- The characters of a group `,a,s`. -/
def SeatText.text (q : SeatText) : List Char :=
  sepText q.before1 q.after1 ++ q.aisle.text ++ sepText q.before2 q.after2 ++ q.seat.text

/-- The 0-based request coordinates of a group: `(a - 1, s - 1)`. -/
def SeatText.coords (q : SeatText) : Int × Int := (q.aisle.value - 1, q.seat.value - 1)

/-- The characters of an optional comment: `#` and the characters `c`. -/
def commentText : Option (List Char) → List Char
  | none => []
  | some c => '#' :: c

/-- An input line `id,a1,s1,...,an,sn`, followed by `trail` spaces, an optional
comment and an optional newline. -/
def lineText (id : Numeral) (pairs : List SeatText) (trail : Nat)
    (comment : Option (List Char)) (newline : Bool) : List Char :=
  id.text ++ (pairs.map SeatText.text).flatten ++ spaces trail
    ++ commentText comment ++ (if newline then ['\n'] else [])

/-- The groups of a line after the separator in front of the first group. -/
def bodyText : List SeatText → List Char
  | [] => []
  | q :: qs =>
    q.aisle.text ++ sepText q.before2 q.after2 ++ q.seat.text ++ (qs.map SeatText.text).flatten

instance (n : Numeral) : Decidable n.WF := by
  unfold Numeral.WF; infer_instance

instance (n : Numeral) : Decidable n.fitsInt := by
  unfold Numeral.fitsInt; infer_instance

/-- The numeral `7`. -/
def sampleId : Numeral := ⟨false, [7]⟩

/-- The groups `, 2 ,12` and `,-3,05`. -/
def samplePairs : List SeatText :=
  [⟨0, 1, ⟨false, [2]⟩, 1, 0, ⟨false, [1, 2]⟩⟩, ⟨0, 0, ⟨true, [3]⟩, 0, 0, ⟨false, [0, 5]⟩⟩]

/-! ## Specification-level descriptions used in the proofs -/

/-- The mutexes `m0` with every seat of `locks` additionally held by `tid`. -/
def lockAll (tid : Nat) (m0 : Mutexes) (locks : List Seat) : Mutexes :=
  fun s => if s ∈ locks then some tid else m0 s

/-- The grid `th` with `cid` written to every in-range seat of `seats`. -/
def writeAll (cid : Int) (th : Grid) (seats : List (Int × Int)) : Grid :=
  fun s => if some s ∈ seats.map seatOf then cid else th s

/-- The request can be acquired in full: every coordinate is in range, its
mutex is free, its cell is 0, and no coordinate occurs twice. -/
def Bookable (st : Shared) (seats : List (Int × Int)) : Prop :=
  (∀ p ∈ seats, ∃ s, seatOf p = some s ∧ st.seat_mutexes s = none ∧ st.theater s = 0)
    ∧ seats.Nodup

instance (st : Shared) (seats : List (Int × Int)) : Decidable (Bookable st seats) := by
  unfold Bookable; infer_instance

/-- The acquisition loop can run to its end from a point where `locks` are
already held. -/
def AcqFrom (th : Grid) (m0 : Mutexes) (locks : List Seat) (seats : List (Int × Int)) : Prop :=
  (∀ p ∈ seats, ∃ s, seatOf p = some s ∧ m0 s = none ∧ th s = 0 ∧ s ∉ locks) ∧ seats.Nodup

instance (th : Grid) (m0 : Mutexes) (locks : List Seat) (seats : List (Int × Int)) :
    Decidable (AcqFrom th m0 locks seats) := by
  unfold AcqFrom; infer_instance

/-- Three jobs: customer 0 for seat (4,11), customer 1 for seat (0,0), customer 2
for seat (0,1). -/
def sampleJobs : List (Nat × BookingRequest) :=
  [(0, ⟨0, [(4, 11)]⟩), (1, ⟨1, [(0, 0)]⟩), (2, ⟨2, [(0, 1)]⟩)]

/-- The empty grid with the mutex of seat (0,1) held by thread 5. -/
def oneHeld : Shared := ⟨emptyTheater, Function.update freeMutexes (0, 1) (some 5)⟩

/-! ## Lemmas -/

theorem seatOf_eq_none_iff (p : Int × Int) : seatOf p = none ↔ outOfRange p := by
  unfold seatOf
  split <;> simp [*]

theorem seatOf_eq_some_iff (p : Int × Int) (s : Seat) :
    seatOf p = some s ↔ p = ((s.1.val : Int), (s.2.val : Int)) := by
  obtain ⟨a, b⟩ := p
  obtain ⟨⟨x, hx⟩, ⟨y, hy⟩⟩ := s
  unfold seatOf outOfRange
  split
  · rename_i h
    simp only [Prod.mk.injEq, false_iff, not_and, reduceCtorEq]
    intro h1 h2
    simp only at h
    subst h1 h2
    omega
  · rename_i h
    simp only [Option.some.injEq, Prod.mk.injEq, Fin.mk.injEq]
    simp only at h
    omega

theorem seatOf_injective {p q : Int × Int} {s : Seat}
    (hp : seatOf p = some s) (hq : seatOf q = some s) : p = q := by
  rw [seatOf_eq_some_iff] at hp hq
  rw [hp, hq]

theorem lockAll_nil (tid : Nat) (m0 : Mutexes) : lockAll tid m0 [] = m0 := by
  funext s; simp [lockAll]

theorem lockAll_update_none (tid : Nat) (m0 : Mutexes) (s : Seat) (rest : List Seat)
    (hs : s ∉ rest) (hfree : m0 s = none) :
    Function.update (lockAll tid m0 (s :: rest)) s none = lockAll tid m0 rest := by
  funext x
  by_cases hx : x = s
  · subst hx; simp [lockAll, hs, hfree]
  · simp [lockAll, Function.update, hx]

theorem lockAll_update_some (tid : Nat) (m0 : Mutexes) (s : Seat) (locks : List Seat) :
    Function.update (lockAll tid m0 locks) s (some tid) = lockAll tid m0 (locks ++ [s]) := by
  funext x
  by_cases hx : x = s
  · subst hx; simp [lockAll]
  · simp [lockAll, Function.update, hx]

/-- Releasing the array `locks` undoes the acquisitions recorded in it. -/
theorem release_locks_lockAll (tid : Nat) (m0 : Mutexes) :
    ∀ locks : List Seat, locks.Nodup → (∀ s ∈ locks, m0 s = none) →
      release_locks tid (lockAll tid m0 locks) locks = some m0 := by
  intro locks
  induction locks with
  | nil => intro _ _; simp [release_locks, lockAll_nil]
  | cons s rest ih =>
    intro hnd hfree
    have hs : s ∉ rest := (List.nodup_cons.mp hnd).1
    have h1 : lockAll tid m0 (s :: rest) s = some tid := by simp [lockAll]
    simp only [release_locks, pthread_mutex_unlock, h1, if_true]
    rw [lockAll_update_none tid m0 s rest hs (hfree s (List.mem_cons_self _ _))]
    exact ih (List.nodup_cons.mp hnd).2 (fun x hx => hfree x (List.mem_cons_of_mem _ hx))

theorem acqFrom_cons (th : Grid) (m0 : Mutexes) (locks : List Seat) (p : Int × Int)
    (rest : List (Int × Int)) (s : Seat) (hp : seatOf p = some s) :
    AcqFrom th m0 locks (p :: rest) ↔
      (m0 s = none ∧ th s = 0 ∧ s ∉ locks) ∧ AcqFrom th m0 (locks ++ [s]) rest := by
  unfold AcqFrom
  constructor
  · rintro ⟨hall, hnd⟩
    obtain ⟨s', hs', h1, h2, h3⟩ := hall p (List.mem_cons_self _ _)
    rw [hp] at hs'
    cases hs'
    refine ⟨⟨h1, h2, h3⟩, ?_, (List.nodup_cons.mp hnd).2⟩
    intro q hq
    obtain ⟨t, ht, g1, g2, g3⟩ := hall q (List.mem_cons_of_mem _ hq)
    refine ⟨t, ht, g1, g2, ?_⟩
    simp only [List.mem_append, List.mem_singleton, not_or]
    refine ⟨g3, ?_⟩
    intro hts
    subst hts
    have : q = p := seatOf_injective ht hp
    subst this
    exact (List.nodup_cons.mp hnd).1 hq
  · rintro ⟨⟨h1, h2, h3⟩, hall, hnd⟩
    refine ⟨?_, ?_⟩
    · intro q hq
      rcases List.mem_cons.mp hq with rfl | hq
      · exact ⟨s, hp, h1, h2, h3⟩
      · obtain ⟨t, ht, g1, g2, g3⟩ := hall q hq
        simp only [List.mem_append, List.mem_singleton, not_or] at g3
        exact ⟨t, ht, g1, g2, g3.1⟩
    · refine List.nodup_cons.mpr ⟨?_, hnd⟩
      intro hmem
      obtain ⟨t, ht, _, _, g3⟩ := hall p hmem
      rw [hp] at ht
      cases ht
      simp at g3

/-- Complete description of the acquisition loop: started with `locks` held
on top of `m0`, it either holds every seat of the request at the end, or
has released everything and left the mutexes as `m0`. -/
theorem acquireLoop_eq (tid : Nat) (th : Grid) (m0 : Mutexes) :
    ∀ (seats : List (Int × Int)) (locks : List Seat),
      locks.Nodup → (∀ s ∈ locks, m0 s = none) →
      acquireLoop tid th seats (lockAll tid m0 locks) locks =
        if AcqFrom th m0 locks seats then
          some (Acquired.held (lockAll tid m0 (locks ++ seats.filterMap seatOf))
            (locks ++ seats.filterMap seatOf))
        else some (Acquired.failed m0) := by
  intro seats
  induction seats with
  | nil =>
    intro locks _ _
    simp [acquireLoop, AcqFrom]
  | cons p rest ih =>
    intro locks hnd hfree
    have hrel := release_locks_lockAll tid m0 locks hnd hfree
    cases hp : seatOf p with
    | none =>
      have hno : ¬ AcqFrom th m0 locks (p :: rest) := by
        rintro ⟨hall, _⟩
        obtain ⟨s, hs, _⟩ := hall p (List.mem_cons_self _ _)
        rw [hp] at hs
        cases hs
      simp only [acquireLoop, hp, hrel, Option.map_some', if_neg hno]
    | some s =>
      have hiff := acqFrom_cons th m0 locks p rest s hp
      by_cases hfr : lockAll tid m0 locks s = none
      · have hs : s ∉ locks ∧ m0 s = none := by
          unfold lockAll at hfr
          by_cases hm : s ∈ locks
          · simp [hm] at hfr
          · simp only [hm, if_false] at hfr
            exact ⟨hm, hfr⟩
        by_cases hocc : th s = 0
        · have hnd1 : (locks ++ [s]).Nodup := by
            rw [List.nodup_append]
            refine ⟨hnd, List.nodup_singleton s, ?_⟩
            intro x hx hx1
            rw [List.mem_singleton] at hx1
            subst hx1
            exact hs.1 hx
          have hfree1 : ∀ x ∈ locks ++ [s], m0 x = none := by
            intro x hx
            rcases List.mem_append.mp hx with h | h
            · exact hfree x h
            · rw [List.mem_singleton] at h
              subst h
              exact hs.2
          have hrec := ih (locks ++ [s]) hnd1 hfree1
          have hstep : acquireLoop tid th (p :: rest) (lockAll tid m0 locks) locks
              = acquireLoop tid th rest (lockAll tid m0 (locks ++ [s])) (locks ++ [s]) := by
            simp only [acquireLoop, hp, pthread_mutex_trylock, hfr, if_true, hocc, ne_eq,
              not_true_eq_false, if_false, lockAll_update_some]
          rw [hstep, hrec]
          by_cases hA : AcqFrom th m0 (locks ++ [s]) rest
          · rw [if_pos hA, if_pos (hiff.mpr ⟨⟨hs.2, hocc, hs.1⟩, hA⟩)]
            simp [List.filterMap_cons, hp]
          · rw [if_neg hA, if_neg (fun h => hA (hiff.mp h).2)]
        · have hun : Function.update (Function.update (lockAll tid m0 locks) s (some tid)) s none
              = lockAll tid m0 locks := by
            funext x
            by_cases hx : x = s
            · subst hx; simp [hfr]
            · simp [Function.update, hx]
          rw [if_neg (fun h => hocc (hiff.mp h).1.2.1)]
          simp only [acquireLoop, hp, pthread_mutex_trylock, hfr, if_true, hocc, ne_eq,
            not_false_eq_true, pthread_mutex_unlock, Function.update_same, hun, hrel,
            Option.map_some']
      · have hno : ¬ AcqFrom th m0 locks (p :: rest) := by
          intro h
          obtain ⟨⟨h1, _, h3⟩, _⟩ := hiff.mp h
          apply hfr
          simp [lockAll, h3, h1]
        rw [if_neg hno]
        simp only [acquireLoop, hp, pthread_mutex_trylock, hfr, if_false, hrel,
          Option.map_some']

theorem writeAll_update (cid : Int) (th : Grid) (p : Int × Int) (s : Seat)
    (rest : List (Int × Int)) (hp : seatOf p = some s) :
    writeAll cid (Function.update th s cid) rest = writeAll cid th (p :: rest) := by
  funext x
  by_cases hx : x = s
  · subst hx; simp [writeAll, hp]
  · have hx1 : ¬ (some x = some s) := by simpa using hx
    simp only [writeAll, List.map_cons, hp, List.mem_cons, hx1, false_or,
      Function.update_noteq hx]

/-- The commit loop writes the customer id to every seat of a request whose
coordinates are all in range. -/
theorem bookLoop_eq (cid : Int) :
    ∀ (seats : List (Int × Int)) (th : Grid), (∀ p ∈ seats, ∃ s, seatOf p = some s) →
      bookLoop cid seats th = some (writeAll cid th seats) := by
  intro seats
  induction seats with
  | nil =>
    intro th _
    have : writeAll cid th [] = th := by funext x; simp [writeAll]
    simp [bookLoop, this]
  | cons p rest ih =>
    intro th h
    obtain ⟨s, hs⟩ := h p (List.mem_cons_self _ _)
    simp only [bookLoop, hs]
    rw [ih _ (fun q hq => h q (List.mem_cons_of_mem _ hq)), writeAll_update cid th p s rest hs]

theorem bookable_iff_acqFrom (st : Shared) (seats : List (Int × Int)) :
    Bookable st seats ↔ AcqFrom st.theater st.seat_mutexes [] seats := by
  unfold Bookable AcqFrom
  simp

/-- Complete description of one uninterrupted call of `try_book_seats`: it
returns 1 with the request written and the mutexes as before when the
request is `Bookable`, and returns 0 with the shared state as before when
it is not. -/
theorem try_book_seats_eq (tid : Nat) (st : Shared) (req : BookingRequest) :
    try_book_seats tid st req =
      if Bookable st req.seats then
        some (1, ⟨writeAll req.customer_id st.theater req.seats, st.seat_mutexes⟩)
      else some (0, st) := by
  have hacq := acquireLoop_eq tid st.theater st.seat_mutexes req.seats []
    List.nodup_nil (fun _ h => absurd h (List.not_mem_nil _))
  rw [lockAll_nil] at hacq
  unfold try_book_seats
  by_cases hb : Bookable st req.seats
  · have hA := (bookable_iff_acqFrom st req.seats).mp hb
    rw [if_pos hA] at hacq
    rw [hacq, if_pos hb]
    have hin : ∀ p ∈ req.seats, ∃ s, seatOf p = some s := fun p hp =>
      let ⟨s, hs, _⟩ := hb.1 p hp; ⟨s, hs⟩
    have hnd : (req.seats.filterMap seatOf).Nodup := by
      refine List.Nodup.filterMap ?_ hb.2
      intro a a' b hb1 hb2
      exact seatOf_injective (Option.mem_def.mp hb1) (Option.mem_def.mp hb2)
    have hfree : ∀ s ∈ req.seats.filterMap seatOf, st.seat_mutexes s = none := by
      intro s hs
      obtain ⟨p, hp, hps⟩ := List.mem_filterMap.mp hs
      obtain ⟨s', hs', hm, _⟩ := hb.1 p hp
      rw [hps] at hs'
      cases hs'
      exact hm
    simp only [List.nil_append, bookLoop_eq _ _ _ hin,
      release_locks_lockAll tid st.seat_mutexes _ hnd hfree]
  · have hA : ¬ AcqFrom st.theater st.seat_mutexes [] req.seats :=
      fun h => hb ((bookable_iff_acqFrom st req.seats).mpr h)
    rw [if_neg hA] at hacq
    rw [hacq, if_neg hb]

/-! ## Consequences for one call -/

theorem try_book_seats_total (tid : Nat) (st : Shared) (req : BookingRequest) :
    ∃ ret st', try_book_seats tid st req = some (ret, st') ∧ (ret = 0 ∨ ret = 1) := by
  rw [try_book_seats_eq]
  split
  · exact ⟨1, _, rfl, Or.inr rfl⟩
  · exact ⟨0, _, rfl, Or.inl rfl⟩

theorem try_book_seats_fail_iff (tid : Nat) (st : Shared) (req : BookingRequest) (st' : Shared) :
    try_book_seats tid st req = some (0, st') ↔ ¬ Bookable st req.seats ∧ st' = st := by
  rw [try_book_seats_eq]
  split
  · rename_i h
    simp [h]
  · rename_i h
    simp only [Option.some.injEq, Prod.mk.injEq, true_and, h, not_false_eq_true]
    exact eq_comm

theorem try_book_seats_success_iff (tid : Nat) (st : Shared) (req : BookingRequest)
    (st' : Shared) :
    try_book_seats tid st req = some (1, st') ↔
      Bookable st req.seats ∧
        st' = ⟨writeAll req.customer_id st.theater req.seats, st.seat_mutexes⟩ := by
  rw [try_book_seats_eq]
  split
  · rename_i h
    simp only [Option.some.injEq, Prod.mk.injEq, true_and, h]
    exact eq_comm
  · rename_i h
    simp [h]

theorem writeAll_of_mem (cid : Int) (th : Grid) (seats : List (Int × Int)) (p : Int × Int)
    (s : Seat) (hp : p ∈ seats) (hs : seatOf p = some s) : writeAll cid th seats s = cid := by
  have : some s ∈ seats.map seatOf := List.mem_map.mpr ⟨p, hp, hs⟩
  simp [writeAll, this]

theorem writeAll_of_not_mem (cid : Int) (th : Grid) (seats : List (Int × Int)) (s : Seat)
    (hs : ∀ p ∈ seats, seatOf p ≠ some s) : writeAll cid th seats s = th s := by
  have : some s ∉ seats.map seatOf := by
    intro h
    obtain ⟨p, hp, hps⟩ := List.mem_map.mp h
    exact hs p hp hps
  simp [writeAll, this]

/-! ## Claims about one call of `try_book_seats` -/

/-- C1: failure is atomic.  If `try_book_seats` returns 0, the theater grid after the
call equals the grid before the call in every cell, whatever the grid, the
mutex state and the request are. -/
theorem failure_is_atomic (tid : Nat) (st : Shared) (req : BookingRequest) (st' : Shared)
    (h : try_book_seats tid st req = some (0, st')) :
    ∀ cell : Seat, st'.theater cell = st.theater cell := by
  intro cell
  rw [((try_book_seats_fail_iff tid st req st').mp h).2]

/-- C2: success postcondition.  If `try_book_seats` returns 1, every seat listed in
the request was in range and 0 before the call and holds the customer id after
it, and every cell not listed in the request is unchanged. -/
theorem success_postcondition (tid : Nat) (st : Shared) (req : BookingRequest) (st' : Shared)
    (h : try_book_seats tid st req = some (1, st')) :
    (∀ p ∈ req.seats, ¬ outOfRange p ∧
        ∃ s, seatOf p = some s ∧ st.theater s = 0 ∧ st'.theater s = req.customer_id) ∧
      (∀ s : Seat, (∀ p ∈ req.seats, seatOf p ≠ some s) → st'.theater s = st.theater s) := by
  obtain ⟨hb, hst⟩ := (try_book_seats_success_iff tid st req st').mp h
  subst hst
  refine ⟨?_, ?_⟩
  · intro p hp
    obtain ⟨s, hs, _, h0⟩ := hb.1 p hp
    refine ⟨?_, s, hs, h0, writeAll_of_mem _ _ _ p s hp hs⟩
    intro hout
    rw [(seatOf_eq_none_iff p).mpr hout] at hs
    cases hs
  · intro s hs
    exact writeAll_of_not_mem _ _ _ s hs

/-- C5: a request with at least one out-of-range coordinate is rejected without side
effects: `try_book_seats` returns 0 and leaves the shared state (the grid in
particular) as it was. -/
theorem out_of_range_rejected (tid : Nat) (st : Shared) (req : BookingRequest)
    (h : ∃ p ∈ req.seats, outOfRange p) :
    try_book_seats tid st req = some (0, st) := by
  obtain ⟨p, hp, hout⟩ := h
  refine (try_book_seats_fail_iff tid st req st).mpr ⟨?_, rfl⟩
  intro hb
  obtain ⟨s, hs, _⟩ := hb.1 p hp
  rw [(seatOf_eq_none_iff p).mpr hout] at hs
  cases hs

/-- C10: every exit path releases exactly what the attempt acquired.  For a thread
that holds no seat mutex when it calls `try_book_seats`, the call returns (0 or
1) without ever unlocking a mutex the thread does not hold (the model returns
`none` for such an unlock, and a mutex becomes held by the thread only through
its own trylock), the mutex state after the call is identical to the mutex
state before it, and the thread holds no seat mutex. -/
theorem locks_restored (tid : Nat) (st : Shared) (req : BookingRequest)
    (hself : ∀ s, st.seat_mutexes s ≠ some tid) :
    ∃ ret st', try_book_seats tid st req = some (ret, st') ∧ (ret = 0 ∨ ret = 1) ∧
      st'.seat_mutexes = st.seat_mutexes ∧ ∀ s, st'.seat_mutexes s ≠ some tid := by
  rw [try_book_seats_eq]
  split
  · exact ⟨1, _, rfl, Or.inr rfl, rfl, hself⟩
  · exact ⟨0, _, rfl, Or.inl rfl, rfl, hself⟩

theorem failure_is_atomic_witness :
    try_book_seats 0 initShared ⟨7, [(0, 0), (98, 0)]⟩ = some (0, initShared) ∧
      ∀ cell : Seat, initShared.theater cell = initShared.theater cell :=
  ⟨by rw [try_book_seats_fail_iff]; simp [Bookable, seatOf, outOfRange],
   failure_is_atomic 0 initShared ⟨7, [(0, 0), (98, 0)]⟩ initShared
     (by rw [try_book_seats_fail_iff]; simp [Bookable, seatOf, outOfRange])⟩

theorem bookable_init_pair : Bookable initShared [(0, 0), (0, 1)] := by
  refine ⟨?_, by decide⟩
  intro p hp
  simp only [List.mem_cons, List.mem_singleton, List.not_mem_nil, or_false] at hp
  rcases hp with rfl | rfl
  · exact ⟨(0, 0), by decide, rfl, rfl⟩
  · exact ⟨(0, 1), by decide, rfl, rfl⟩

theorem success_postcondition_witness :
    try_book_seats 0 initShared ⟨7, [(0, 0), (0, 1)]⟩
        = some (1, ⟨writeAll 7 emptyTheater [(0, 0), (0, 1)], freeMutexes⟩) ∧
      (∀ p ∈ [((0 : Int), (0 : Int)), (0, 1)], ¬ outOfRange p ∧
        ∃ s, seatOf p = some s ∧ initShared.theater s = 0 ∧
          writeAll 7 emptyTheater [(0, 0), (0, 1)] s = 7) ∧
      (∀ s : Seat, (∀ p ∈ [((0 : Int), (0 : Int)), (0, 1)], seatOf p ≠ some s) →
        writeAll 7 emptyTheater [(0, 0), (0, 1)] s = initShared.theater s) :=
  ⟨(try_book_seats_success_iff 0 initShared ⟨7, [(0, 0), (0, 1)]⟩ _).mpr
      ⟨bookable_init_pair, rfl⟩,
   success_postcondition 0 initShared ⟨7, [(0, 0), (0, 1)]⟩
     ⟨writeAll 7 emptyTheater [(0, 0), (0, 1)], freeMutexes⟩
     ((try_book_seats_success_iff 0 initShared ⟨7, [(0, 0), (0, 1)]⟩ _).mpr
      ⟨bookable_init_pair, rfl⟩)⟩

theorem out_of_range_rejected_witness :
    (∃ p ∈ [((98 : Int), (0 : Int))], outOfRange p) ∧
      try_book_seats 3 initShared ⟨4, [(98, 0)]⟩ = some (0, initShared) :=
  ⟨⟨(98, 0), by simp, by decide⟩,
   out_of_range_rejected 3 initShared ⟨4, [(98, 0)]⟩ ⟨(98, 0), by simp, by decide⟩⟩

theorem locks_restored_witness :
    (∀ s, initShared.seat_mutexes s ≠ some 0) ∧
      ∃ ret st', try_book_seats 0 initShared ⟨7, [(0, 0), (0, 1)]⟩ = some (ret, st') ∧
        (ret = 0 ∨ ret = 1) ∧ st'.seat_mutexes = initShared.seat_mutexes ∧
        ∀ s, st'.seat_mutexes s ≠ some 0 :=
  ⟨fun s => by simp [initShared, freeMutexes],
   locks_restored 0 initShared ⟨7, [(0, 0), (0, 1)]⟩
     (fun s => by simp [initShared, freeMutexes])⟩

/-- C3 (as stated) fails: on the empty grid with every mutex free, the request
of customer 1 naming seat (0,0) twice returns 0, although no seat of the request
is out of range, locked by another thread, or occupied. -/
theorem duplicate_seat_request_fails :
    try_book_seats 0 initShared ⟨1, [(0, 0), (0, 0)]⟩ = some (0, initShared) ∧
      ¬ ∃ p ∈ [((0 : Int), (0 : Int)), (0, 0)], outOfRange p ∨
          ∃ s, seatOf p = some s ∧
            ((∃ t, t ≠ 0 ∧ initShared.seat_mutexes s = some t) ∨ initShared.theater s ≠ 0) := by
  refine ⟨?_, ?_⟩
  · rw [try_book_seats_fail_iff]
    exact ⟨fun h => absurd h.2 (by decide), rfl⟩
  · rintro ⟨p, hp, h⟩
    simp only [List.mem_cons, List.mem_singleton, List.not_mem_nil, or_false, or_self] at hp
    subst hp
    rcases h with h | ⟨s, _, h | h⟩
    · exact absurd h (by decide)
    · obtain ⟨t, _, ht⟩ := h
      simp [initShared, freeMutexes] at ht
    · simp [initShared, emptyTheater] at h

/-- C3 (amended): for a thread holding no seat mutex, `try_book_seats` returns 0
only if some seat of the request is out of range, or its mutex is held by a
different thread, or its cell was non-zero before the call, or the request names
a seat twice; and a request whose seats are all in range, unoccupied and
pairwise distinct, run while no other thread holds any mutex, returns 1. -/
theorem failure_reasons (tid : Nat) (st : Shared) (req : BookingRequest)
    (hself : ∀ s, st.seat_mutexes s ≠ some tid) :
    (∀ st', try_book_seats tid st req = some (0, st') →
        (∃ p ∈ req.seats, outOfRange p ∨
          ∃ s, seatOf p = some s ∧
            ((∃ t, t ≠ tid ∧ st.seat_mutexes s = some t) ∨ st.theater s ≠ 0)) ∨
        ¬ req.seats.Nodup) ∧
      ((∀ p ∈ req.seats, ¬ outOfRange p ∧ ∀ s, seatOf p = some s → st.theater s = 0) →
        (∀ s t, t ≠ tid → st.seat_mutexes s ≠ some t) → req.seats.Nodup →
        ∃ st', try_book_seats tid st req = some (1, st')) := by
  refine ⟨?_, ?_⟩
  · intro st' h
    have hnb := ((try_book_seats_fail_iff tid st req st').mp h).1
    by_contra hcon
    rw [not_or, not_not] at hcon
    obtain ⟨hall, hnd⟩ := hcon
    apply hnb
    refine ⟨?_, hnd⟩
    intro p hp
    have hin : ¬ outOfRange p := fun ho => hall ⟨p, hp, Or.inl ho⟩
    cases hs : seatOf p with
    | none => exact absurd ((seatOf_eq_none_iff p).mp hs) hin
    | some s =>
      refine ⟨s, rfl, ?_, ?_⟩
      · cases hm : st.seat_mutexes s with
        | none => rfl
        | some t =>
          exfalso
          apply hall
          refine ⟨p, hp, Or.inr ⟨s, hs, Or.inl ⟨t, ?_, hm⟩⟩⟩
          intro ht
          subst ht
          exact hself s hm
      · by_contra h0
        exact hall ⟨p, hp, Or.inr ⟨s, hs, Or.inr h0⟩⟩
  · intro hgood hnone hnd
    refine ⟨_, (try_book_seats_success_iff tid st req _).mpr ⟨⟨?_, hnd⟩, rfl⟩⟩
    intro p hp
    obtain ⟨hin, h0⟩ := hgood p hp
    cases hs : seatOf p with
    | none => exact absurd ((seatOf_eq_none_iff p).mp hs) hin
    | some s =>
      refine ⟨s, rfl, ?_, h0 s hs⟩
      cases hm : st.seat_mutexes s with
      | none => rfl
      | some t =>
        exfalso
        by_cases ht : t = tid
        · subst ht; exact hself s hm
        · exact hnone s t ht hm

theorem oneHeld_not_self (s : Seat) : oneHeld.seat_mutexes s ≠ some 0 := by
  unfold oneHeld
  by_cases h : s = (0, 1)
  · subst h; simp
  · simp [Function.update, h, freeMutexes]

theorem oneHeld_fails :
    try_book_seats 0 oneHeld ⟨7, [(0, 0), (0, 1)]⟩ = some (0, oneHeld) := by
  rw [try_book_seats_fail_iff]
  refine ⟨?_, rfl⟩
  intro h
  obtain ⟨s, hs, hm, _⟩ := h.1 (0, 1) (by simp)
  have h01 : seatOf (0, 1) = some (0, 1) := by decide
  rw [h01] at hs
  cases hs
  simp [oneHeld] at hm

theorem failure_reasons_witness :
    try_book_seats 0 oneHeld ⟨7, [(0, 0), (0, 1)]⟩ = some (0, oneHeld) ∧
      ((∃ p ∈ [((0 : Int), (0 : Int)), (0, 1)], outOfRange p ∨
          ∃ s, seatOf p = some s ∧
            ((∃ t, t ≠ 0 ∧ oneHeld.seat_mutexes s = some t) ∨ oneHeld.theater s ≠ 0)) ∨
        ¬ [((0 : Int), (0 : Int)), (0, 1)].Nodup) ∧
      ∃ st', try_book_seats 0 initShared ⟨7, [(0, 0), (0, 1)]⟩ = some (1, st') :=
  ⟨oneHeld_fails,
   (failure_reasons 0 oneHeld ⟨7, [(0, 0), (0, 1)]⟩ oneHeld_not_self).1 oneHeld oneHeld_fails,
   (failure_reasons 0 initShared ⟨7, [(0, 0), (0, 1)]⟩
      (fun s => by simp [initShared, freeMutexes])).2
     (fun p hp => by
        simp only [List.mem_cons, List.mem_singleton, List.not_mem_nil, or_false] at hp
        rcases hp with rfl | rfl
        · exact ⟨by decide, fun _ _ => rfl⟩
        · exact ⟨by decide, fun _ _ => rfl⟩)
     (fun s t _ => by simp [initShared, freeMutexes])
     (by decide)⟩

/-! ## Sequences of calls -/

/-- C7: disjoint requests both succeed regardless of order.  Two requests whose
seats are in range, free of duplicates and share no seat, run one after the
other on the empty grid with all mutexes free, both return 1 in either order,
both orders end in the same grid, and in it every requested seat holds its
requester's id and every other cell is 0. -/
theorem disjoint_requests_commute (t1 t2 : Nat) (r1 r2 : BookingRequest)
    (h1 : ∀ p ∈ r1.seats, ¬ outOfRange p) (h2 : ∀ p ∈ r2.seats, ¬ outOfRange p)
    (hnd1 : r1.seats.Nodup) (hnd2 : r2.seats.Nodup)
    (hdisj : ∀ p ∈ r1.seats, p ∉ r2.seats) :
    ∃ g : Grid,
      runSequential initShared [(t1, r1), (t2, r2)] = some ([1, 1], ⟨g, freeMutexes⟩) ∧
      runSequential initShared [(t2, r2), (t1, r1)] = some ([1, 1], ⟨g, freeMutexes⟩) ∧
      (∀ p ∈ r1.seats, ∃ s, seatOf p = some s ∧ g s = r1.customer_id) ∧
      (∀ p ∈ r2.seats, ∃ s, seatOf p = some s ∧ g s = r2.customer_id) ∧
      (∀ s : Seat, (∀ p ∈ r1.seats, seatOf p ≠ some s) → (∀ p ∈ r2.seats, seatOf p ≠ some s) →
        g s = 0) := by
  have hseat : ∀ p, ¬ outOfRange p → ∃ s, seatOf p = some s := by
    intro p hp
    cases hs : seatOf p with
    | none => exact absurd ((seatOf_eq_none_iff p).mp hs) hp
    | some s => exact ⟨s, rfl⟩
  have hsep : ∀ p ∈ r1.seats, ∀ q ∈ r2.seats, ∀ s, seatOf p = some s → seatOf q ≠ some s := by
    intro p hp q hq s hps hqs
    have : p = q := seatOf_injective hps hqs
    subst this
    exact hdisj p hp hq
  have hb1 : Bookable initShared r1.seats :=
    ⟨fun p hp => let ⟨s, hs⟩ := hseat p (h1 p hp); ⟨s, hs, rfl, rfl⟩, hnd1⟩
  have hb2 : Bookable initShared r2.seats :=
    ⟨fun p hp => let ⟨s, hs⟩ := hseat p (h2 p hp); ⟨s, hs, rfl, rfl⟩, hnd2⟩
  have hb12 : Bookable ⟨writeAll r1.customer_id initShared.theater r1.seats,
      initShared.seat_mutexes⟩ r2.seats := by
    refine ⟨?_, hnd2⟩
    intro q hq
    obtain ⟨s, hs⟩ := hseat q (h2 q hq)
    refine ⟨s, hs, rfl, ?_⟩
    show writeAll r1.customer_id initShared.theater r1.seats s = 0
    rw [writeAll_of_not_mem _ _ _ s (fun p hp hps => hsep p hp q hq s hps hs)]
    rfl
  have hb21 : Bookable ⟨writeAll r2.customer_id initShared.theater r2.seats,
      initShared.seat_mutexes⟩ r1.seats := by
    refine ⟨?_, hnd1⟩
    intro p hp
    obtain ⟨s, hs⟩ := hseat p (h1 p hp)
    refine ⟨s, hs, rfl, ?_⟩
    show writeAll r2.customer_id initShared.theater r2.seats s = 0
    rw [writeAll_of_not_mem _ _ _ s (fun q hq hqs => hsep p hp q hq s hs hqs)]
    rfl
  refine ⟨writeAll r2.customer_id (writeAll r1.customer_id initShared.theater r1.seats) r2.seats,
    ?_, ?_, ?_, ?_, ?_⟩
  · simp only [runSequential, try_book_seats_eq, if_pos hb1, if_pos hb12]
    rfl
  · simp only [runSequential, try_book_seats_eq, if_pos hb2, if_pos hb21]
    have hg : writeAll r1.customer_id (writeAll r2.customer_id initShared.theater r2.seats)
        r1.seats
        = writeAll r2.customer_id (writeAll r1.customer_id initShared.theater r1.seats)
          r2.seats := by
      funext s
      by_cases ha : some s ∈ r1.seats.map seatOf
      · obtain ⟨p, hp, hps⟩ := List.mem_map.mp ha
        rw [writeAll_of_mem _ _ _ p s hp hps,
          writeAll_of_not_mem _ _ _ s (fun q hq hqs => hsep p hp q hq s hps hqs),
          writeAll_of_mem _ _ _ p s hp hps]
      · have ha1 : ∀ p ∈ r1.seats, seatOf p ≠ some s :=
          fun p hp hps => ha (List.mem_map.mpr ⟨p, hp, hps⟩)
        rw [writeAll_of_not_mem _ _ _ s ha1]
        by_cases hb : some s ∈ r2.seats.map seatOf
        · obtain ⟨q, hq, hqs⟩ := List.mem_map.mp hb
          rw [writeAll_of_mem _ _ _ q s hq hqs, writeAll_of_mem _ _ _ q s hq hqs]
        · have hb1 : ∀ q ∈ r2.seats, seatOf q ≠ some s :=
            fun q hq hqs => hb (List.mem_map.mpr ⟨q, hq, hqs⟩)
          rw [writeAll_of_not_mem _ _ _ s hb1, writeAll_of_not_mem _ _ _ s hb1,
            writeAll_of_not_mem _ _ _ s ha1]
    rw [hg]
    rfl
  · intro p hp
    obtain ⟨s, hs⟩ := hseat p (h1 p hp)
    refine ⟨s, hs, ?_⟩
    rw [writeAll_of_not_mem _ _ _ s (fun q hq hqs => hsep p hp q hq s hs hqs),
      writeAll_of_mem _ _ _ p s hp hs]
  · intro q hq
    obtain ⟨s, hs⟩ := hseat q (h2 q hq)
    exact ⟨s, hs, writeAll_of_mem _ _ _ q s hq hs⟩
  · intro s ha hb
    rw [writeAll_of_not_mem _ _ _ s hb, writeAll_of_not_mem _ _ _ s ha]
    rfl

theorem disjoint_requests_commute_witness :
    (∀ p ∈ [((0 : Int), (0 : Int)), (0, 1)], ¬ outOfRange p) ∧
      ∃ g : Grid,
        runSequential initShared [(0, ⟨1, [(0, 0), (0, 1)]⟩), (1, ⟨2, [(1, 0)]⟩)]
          = some ([1, 1], ⟨g, freeMutexes⟩) ∧
        runSequential initShared [(1, ⟨2, [(1, 0)]⟩), (0, ⟨1, [(0, 0), (0, 1)]⟩)]
          = some ([1, 1], ⟨g, freeMutexes⟩) ∧
        (∀ p ∈ [((0 : Int), (0 : Int)), (0, 1)], ∃ s, seatOf p = some s ∧ g s = 1) ∧
        (∀ p ∈ [((1 : Int), (0 : Int))], ∃ s, seatOf p = some s ∧ g s = 2) ∧
        (∀ s : Seat, (∀ p ∈ [((0 : Int), (0 : Int)), (0, 1)], seatOf p ≠ some s) →
          (∀ p ∈ [((1 : Int), (0 : Int))], seatOf p ≠ some s) → g s = 0) :=
  ⟨by decide,
   disjoint_requests_commute 0 1 ⟨1, [(0, 0), (0, 1)]⟩ ⟨2, [(1, 0)]⟩
     (by decide) (by decide) (by decide) (by decide) (by decide)⟩

theorem try_book_seats_keeps_nonzero (tid : Nat) (st : Shared) (req : BookingRequest)
    (ret : Int) (st' : Shared) (h : try_book_seats tid st req = some (ret, st')) :
    ∀ s, st.theater s ≠ 0 → st'.theater s = st.theater s := by
  intro s hs
  rw [try_book_seats_eq] at h
  split at h
  · rename_i hb
    simp only [Option.some.injEq, Prod.mk.injEq] at h
    rw [← h.2]
    refine writeAll_of_not_mem _ _ _ s ?_
    intro p hp hps
    obtain ⟨s', hs', _, h0⟩ := hb.1 p hp
    rw [hps] at hs'
    cases hs'
    exact hs h0
  · simp only [Option.some.injEq, Prod.mk.injEq] at h
    rw [← h.2]

theorem runSequential_total :
    ∀ (jobs : List (Nat × BookingRequest)) (st : Shared),
      ∃ rets st', runSequential st jobs = some (rets, st') ∧ rets.length = jobs.length := by
  intro jobs
  induction jobs with
  | nil => intro st; exact ⟨[], st, rfl, rfl⟩
  | cons j rest ih =>
    intro st
    obtain ⟨ret, st1, h1, _⟩ := try_book_seats_total j.1 st j.2
    obtain ⟨rets, st2, h2, hl⟩ := ih st1
    refine ⟨ret :: rets, st2, ?_, by simp [hl]⟩
    simp only [runSequential, h1, h2]

theorem runSequential_cons (st : Shared) (j : Nat × BookingRequest)
    (rest : List (Nat × BookingRequest)) (rets : List Int) (st' : Shared)
    (h : runSequential st (j :: rest) = some (rets, st')) :
    ∃ ret st1 rets1, try_book_seats j.1 st j.2 = some (ret, st1) ∧
      runSequential st1 rest = some (rets1, st') ∧ rets = ret :: rets1 := by
  obtain ⟨ret, st1, h1, _⟩ := try_book_seats_total j.1 st j.2
  obtain ⟨rets1, st2, h2, _⟩ := runSequential_total rest st1
  simp only [runSequential, h1, h2, Option.some.injEq, Prod.mk.injEq] at h
  refine ⟨ret, st1, rets1, h1, ?_, h.1.symm⟩
  rw [h2, h.2]

/-- A request that returns 1 somewhere in a run names only seats that are in
range and were 0 when the run started. -/
theorem success_needs_zero :
    ∀ (jobs : List (Nat × BookingRequest)) (st : Shared) (rets : List Int) (st' : Shared),
      runSequential st jobs = some (rets, st') →
      ∀ (k : Nat) (t : Nat) (r : BookingRequest), jobs[k]? = some (t, r) → rets[k]? = some 1 →
        ∀ p ∈ r.seats, ∃ s, seatOf p = some s ∧ st.theater s = 0 := by
  intro jobs
  induction jobs with
  | nil => intro st rets st' _ k t r hk; simp at hk
  | cons j rest ih =>
    intro st rets st' h k t r hk hr p hp
    obtain ⟨ret, st1, rets1, h1, h2, hrets⟩ := runSequential_cons st j rest rets st' h
    subst hrets
    cases k with
    | zero =>
      simp only [List.getElem?_cons_zero, Option.some.injEq] at hk hr
      subst hk hr
      obtain ⟨hb, _⟩ := (try_book_seats_success_iff _ st _ st1).mp h1
      obtain ⟨s, hs, _, h0⟩ := hb.1 p hp
      exact ⟨s, hs, h0⟩
    | succ k =>
      simp only [List.getElem?_cons_succ] at hk hr
      obtain ⟨s, hs, h0⟩ := ih st1 rets1 st' h2 k t r hk hr p hp
      refine ⟨s, hs, ?_⟩
      by_contra hne
      rw [try_book_seats_keeps_nonzero _ st _ ret st1 h1 s hne] at h0
      exact hne h0

theorem no_shared_seat_ordered :
    ∀ (jobs : List (Nat × BookingRequest)) (st : Shared) (rets : List Int) (st' : Shared),
      runSequential st jobs = some (rets, st') →
      ∀ (i k : Nat) (t1 t2 : Nat) (r1 r2 : BookingRequest), i < k →
        jobs[i]? = some (t1, r1) → jobs[k]? = some (t2, r2) →
        rets[i]? = some 1 → rets[k]? = some 1 → r1.customer_id ≠ 0 →
        ∀ p ∈ r1.seats, p ∉ r2.seats := by
  intro jobs
  induction jobs with
  | nil => intro st rets st' _ i k t1 t2 r1 r2 _ hi; simp at hi
  | cons j rest ih =>
    intro st rets st' h i k t1 t2 r1 r2 hik hi hk hri hrk hnz p hp1 hp2
    obtain ⟨ret, st1, rets1, h1, h2, hrets⟩ := runSequential_cons st j rest rets st' h
    subst hrets
    cases k with
    | zero => omega
    | succ k =>
      simp only [List.getElem?_cons_succ] at hk hrk
      cases i with
      | zero =>
        simp only [List.getElem?_cons_zero, Option.some.injEq] at hi hri
        subst hi hri
        obtain ⟨hb, hst1⟩ := (try_book_seats_success_iff _ st _ st1).mp h1
        obtain ⟨s, hs, h0⟩ := success_needs_zero rest st1 rets1 st' h2 k t2 r2 hk hrk p hp2
        rw [hst1] at h0
        simp only at h0
        rw [writeAll_of_mem _ _ _ p s hp1 hs] at h0
        exact hnz h0
      | succ i =>
        simp only [List.getElem?_cons_succ] at hi hri
        exact ih st1 rets1 st' h2 i k t1 t2 r1 r2 (by omega) hi hk hri hrk hnz p hp1 hp2

/-- C4 (as stated) fails for customer id 0: on the empty grid with all mutexes
free, the request of customer 0 for seat (0,0) and then the request of
customer 5 for the same seat both return 1. -/
theorem customer_zero_double_booking :
    (∃ st, runSequential initShared [(0, ⟨0, [(0, 0)]⟩), (1, ⟨5, [(0, 0)]⟩)]
        = some ([1, 1], st)) ∧
      (0 : Int) ≠ 5 ∧ ∃ p, p ∈ [((0 : Int), (0 : Int))] ∧ p ∈ [((0 : Int), (0 : Int))] := by
  have h00 : seatOf (0, 0) = some (0, 0) := by decide
  have hb1 : Bookable initShared [(0, 0)] :=
    ⟨fun p hp => by
      rw [List.mem_singleton] at hp
      subst hp
      exact ⟨(0, 0), h00, rfl, rfl⟩, by decide⟩
  have hb2 : Bookable ⟨writeAll 0 initShared.theater [(0, 0)], initShared.seat_mutexes⟩
      [(0, 0)] :=
    ⟨fun p hp => by
      rw [List.mem_singleton] at hp
      subst hp
      exact ⟨(0, 0), h00, rfl,
        writeAll_of_mem 0 initShared.theater [(0, 0)] (0, 0) (0, 0)
          (List.mem_singleton.mpr rfl) h00⟩, by decide⟩
  refine ⟨⟨⟨writeAll 5 (writeAll 0 initShared.theater [(0, 0)]) [(0, 0)],
    initShared.seat_mutexes⟩, ?_⟩, by decide, (0, 0), by simp, by simp⟩
  simp only [runSequential, try_book_seats_eq, if_pos hb1, if_pos hb2]

/-- C4 (amended): no two customers get the same seat, unless the one served first
has customer id 0.  For every list of requests (any integer customer ids)
handled one after another from the empty grid with all mutexes free, every call
returns, and no seat is named by two requests with different customer ids that
both return 1 when the one of the two that is handled first (position `i`
before position `k`) has a non-zero customer id. -/
theorem no_double_booking (jobs : List (Nat × BookingRequest)) :
    ∃ rets st', runSequential initShared jobs = some (rets, st') ∧
      rets.length = jobs.length ∧
      ∀ (i k : Nat) (t1 t2 : Nat) (r1 r2 : BookingRequest), i < k →
        jobs[i]? = some (t1, r1) → jobs[k]? = some (t2, r2) →
        rets[i]? = some 1 → rets[k]? = some 1 →
        r1.customer_id ≠ r2.customer_id → r1.customer_id ≠ 0 →
        ¬ ∃ p, p ∈ r1.seats ∧ p ∈ r2.seats := by
  obtain ⟨rets, st', h, hl⟩ := runSequential_total jobs initShared
  refine ⟨rets, st', h, hl, ?_⟩
  rintro i k t1 t2 r1 r2 hlt hi hk hri hrk _ hnz ⟨p, hp1, hp2⟩
  exact no_shared_seat_ordered jobs initShared rets st' h i k t1 t2 r1 r2 hlt hi hk hri hrk hnz
    p hp1 hp2

theorem sampleJobs_run :
    runSequential initShared sampleJobs
      = some ([1, 1, 1],
          ⟨writeAll 2 (writeAll 1 (writeAll 0 initShared.theater [(4, 11)]) [(0, 0)]) [(0, 1)],
            initShared.seat_mutexes⟩) := by
  have hb1 : Bookable initShared [(4, 11)] :=
    ⟨fun p hp => by
      rw [List.mem_singleton] at hp
      subst hp
      exact ⟨(4, 11), by decide, rfl, rfl⟩, by decide⟩
  have hb2 : Bookable ⟨writeAll 0 initShared.theater [(4, 11)], initShared.seat_mutexes⟩
      [(0, 0)] :=
    ⟨fun p hp => by
      rw [List.mem_singleton] at hp
      subst hp
      exact ⟨(0, 0), by decide, rfl, by decide⟩, by decide⟩
  have hb3 : Bookable
      ⟨writeAll 1 (writeAll 0 initShared.theater [(4, 11)]) [(0, 0)], initShared.seat_mutexes⟩
      [(0, 1)] :=
    ⟨fun p hp => by
      rw [List.mem_singleton] at hp
      subst hp
      exact ⟨(0, 1), by decide, rfl, by decide⟩, by decide⟩
  simp only [sampleJobs, runSequential, try_book_seats_eq, if_pos hb1, if_pos hb2, if_pos hb3]

theorem no_double_booking_witness :
    (∃ st', runSequential initShared sampleJobs = some ([1, 1, 1], st')) ∧
      sampleJobs[1]? = some (1, ⟨1, [(0, 0)]⟩) ∧ sampleJobs[2]? = some (2, ⟨2, [(0, 1)]⟩) ∧
      ¬ ∃ p, p ∈ [((0 : Int), (0 : Int))] ∧ p ∈ [((0 : Int), (1 : Int))] :=
  match no_double_booking sampleJobs with
  | ⟨rets, st', h, _, hall⟩ =>
    have hr : rets = [1, 1, 1] := by
      rw [sampleJobs_run] at h
      simp only [Option.some.injEq, Prod.mk.injEq] at h
      exact h.1.symm
    ⟨⟨_, sampleJobs_run⟩, rfl, rfl,
      hall 1 2 1 2 ⟨1, [(0, 0)]⟩ ⟨2, [(0, 1)]⟩ (by decide) rfl rfl
        (by rw [hr]; rfl) (by rw [hr]; rfl) (by decide) (by decide)⟩

/-! ## One worker running alone takes the steps of `try_book_seats` -/

theorem runWorker_add (a b : Nat) : ∀ (sh : Shared) (w : Worker),
    runWorker (a + b) sh w = runWorker b (runWorker a sh w).1 (runWorker a sh w).2 := by
  induction a with
  | zero => intro sh w; simp [runWorker]
  | succ a ih =>
    intro sh w
    rw [Nat.add_right_comm]
    simp only [runWorker]
    exact ih _ _

theorem getElem?_append_length {α : Type} (pre : List α) (x : α) (rest : List α) :
    (pre ++ x :: rest)[pre.length]? = some x := by
  rw [List.getElem?_append_right (Nat.le_refl _)]
  simp

theorem getElem?_append_nil {α : Type} (pre : List α) : (pre ++ [])[pre.length]? = none := by
  simp

/-- The release loop of a worker follows `release_locks`. -/
theorem runWorker_release (tid : Nat) (req : BookingRequest) (th : Grid) (ret : Int) :
    ∀ (locks pre : List Seat) (m m' : Mutexes), release_locks tid m locks = some m' →
      runWorker (locks.length + 1) ⟨th, m⟩ ⟨tid, req, Pc.release pre.length ret, pre ++ locks⟩
        = (⟨th, m'⟩, ⟨tid, req, Pc.done ret, pre ++ locks⟩) := by
  intro locks
  induction locks with
  | nil =>
    intro pre m m' h
    simp only [release_locks, Option.some.injEq] at h
    subst h
    simp [runWorker, stepWorker]
  | cons s rest ih =>
    intro pre m m' h
    simp only [release_locks] at h
    cases hu : pthread_mutex_unlock tid m s with
    | none => rw [hu] at h; cases h
    | some m1 =>
      rw [hu] at h
      simp only at h
      have := ih (pre ++ [s]) m1 m' h
      simp only [List.length_append, List.length_singleton, List.append_assoc,
        List.singleton_append] at this
      rw [List.length_cons, runWorker]
      simp only [stepWorker, getElem?_append_length, hu]
      exact this

/-- The commit loop of a worker follows `bookLoop`. -/
theorem runWorker_book (tid : Nat) (cid : Int) (m : Mutexes) (locks : List Seat) :
    ∀ (rest pre : List (Int × Int)) (th th' : Grid), bookLoop cid rest th = some th' →
      runWorker (rest.length + 1) ⟨th, m⟩ ⟨tid, ⟨cid, pre ++ rest⟩, Pc.book pre.length, locks⟩
        = (⟨th', m⟩, ⟨tid, ⟨cid, pre ++ rest⟩, Pc.release 0 1, locks⟩) := by
  intro rest
  induction rest with
  | nil =>
    intro pre th th' h
    simp only [bookLoop, Option.some.injEq] at h
    subst h
    simp [runWorker, stepWorker]
  | cons p rest ih =>
    intro pre th th' h
    simp only [bookLoop] at h
    cases hs : seatOf p with
    | none => rw [hs] at h; cases h
    | some s =>
      rw [hs] at h
      simp only at h
      have := ih (pre ++ [p]) _ th' h
      simp only [List.length_append, List.length_singleton, List.append_assoc,
        List.singleton_append] at this
      rw [List.length_cons, runWorker]
      simp only [stepWorker, getElem?_append_length, hs]
      exact this

theorem runWorker_release_all (tid : Nat) (req : BookingRequest) (th : Grid) (ret : Int)
    (locks : List Seat) (m m' : Mutexes) (h : release_locks tid m locks = some m') :
    runWorker (locks.length + 1) ⟨th, m⟩ ⟨tid, req, Pc.release 0 ret, locks⟩
      = (⟨th, m'⟩, ⟨tid, req, Pc.done ret, locks⟩) :=
  runWorker_release tid req th ret locks [] m m' h

/-- The acquisition loop of a worker follows `acquireLoop`: it reaches the commit
loop with the same mutexes and `locks`, or returns 0 with the same mutexes. -/
theorem runWorker_acquire (tid : Nat) (cid : Int) (th : Grid) :
    ∀ (rest pre : List (Int × Int)) (m : Mutexes) (locks : List Seat) (res : Acquired),
      acquireLoop tid th rest m locks = some res →
      match res with
      | Acquired.held m' locks' =>
        ∃ n, runWorker n ⟨th, m⟩ ⟨tid, ⟨cid, pre ++ rest⟩, Pc.loopHead pre.length, locks⟩
          = (⟨th, m'⟩, ⟨tid, ⟨cid, pre ++ rest⟩, Pc.book 0, locks'⟩)
      | Acquired.failed m' =>
        ∃ n locks', runWorker n ⟨th, m⟩ ⟨tid, ⟨cid, pre ++ rest⟩, Pc.loopHead pre.length, locks⟩
          = (⟨th, m'⟩, ⟨tid, ⟨cid, pre ++ rest⟩, Pc.done 0, locks'⟩) := by
  intro rest
  induction rest with
  | nil =>
    intro pre m locks res h
    simp only [acquireLoop, Option.some.injEq] at h
    subst h
    exact ⟨1, by simp [runWorker, stepWorker]⟩
  | cons p rest ih =>
    intro pre m locks res h
    simp only [acquireLoop] at h
    cases hs : seatOf p with
    | none =>
      rw [hs] at h
      simp only at h
      cases hr : release_locks tid m locks with
      | none => rw [hr] at h; cases h
      | some m' =>
        rw [hr] at h
        simp only [Option.map_some', Option.some.injEq] at h
        subst h
        refine ⟨1 + (locks.length + 1), locks, ?_⟩
        rw [runWorker_add]
        have h1 : runWorker 1 ⟨th, m⟩
            ⟨tid, ⟨cid, pre ++ p :: rest⟩, Pc.loopHead pre.length, locks⟩
            = (⟨th, m⟩, ⟨tid, ⟨cid, pre ++ p :: rest⟩, Pc.release 0 0, locks⟩) := by
          simp only [runWorker, stepWorker, getElem?_append_length,
            if_pos ((seatOf_eq_none_iff p).mp hs)]
        rw [h1]
        exact runWorker_release_all tid _ th 0 locks m m' hr
    | some s =>
      rw [hs] at h
      simp only at h
      have hin : ¬ outOfRange p := by
        intro ho
        rw [(seatOf_eq_none_iff p).mpr ho] at hs
        cases hs
      have h1 : runWorker 1 ⟨th, m⟩
          ⟨tid, ⟨cid, pre ++ p :: rest⟩, Pc.loopHead pre.length, locks⟩
          = (⟨th, m⟩, ⟨tid, ⟨cid, pre ++ p :: rest⟩, Pc.trylock pre.length, locks⟩) := by
        simp only [runWorker, stepWorker, getElem?_append_length, if_neg hin]
      have hat : ∀ (pc : Pc) (l : List Seat),
          (Worker.mk tid ⟨cid, pre ++ p :: rest⟩ pc l).seatAt pre.length = some s := by
        intro pc l
        simp only [Worker.seatAt, getElem?_append_length, hs]
      cases ht : pthread_mutex_trylock tid m s with
      | none =>
        rw [ht] at h
        simp only at h
        cases hr : release_locks tid m locks with
        | none => rw [hr] at h; cases h
        | some m' =>
          rw [hr] at h
          simp only [Option.map_some', Option.some.injEq] at h
          subst h
          refine ⟨1 + (1 + (locks.length + 1)), locks, ?_⟩
          rw [runWorker_add, h1, runWorker_add]
          have h2 : runWorker 1 ⟨th, m⟩
              ⟨tid, ⟨cid, pre ++ p :: rest⟩, Pc.trylock pre.length, locks⟩
              = (⟨th, m⟩, ⟨tid, ⟨cid, pre ++ p :: rest⟩, Pc.release 0 0, locks⟩) := by
            simp only [runWorker, stepWorker, hat, ht]
          rw [h2]
          exact runWorker_release_all tid _ th 0 locks m m' hr
      | some m1 =>
        rw [ht] at h
        simp only at h
        have h2 : runWorker 1 ⟨th, m⟩
            ⟨tid, ⟨cid, pre ++ p :: rest⟩, Pc.trylock pre.length, locks⟩
            = (⟨th, m1⟩, ⟨tid, ⟨cid, pre ++ p :: rest⟩, Pc.check pre.length, locks⟩) := by
          simp only [runWorker, stepWorker, hat, ht]
        by_cases hocc : th s = 0
        · rw [if_neg (by simpa using hocc)] at h
          have hrec := ih (pre ++ [p]) m1 (locks ++ [s]) res h
          have h3 : runWorker 1 ⟨th, m1⟩
              ⟨tid, ⟨cid, pre ++ p :: rest⟩, Pc.check pre.length, locks⟩
              = (⟨th, m1⟩, ⟨tid, ⟨cid, pre ++ p :: rest⟩, Pc.loopHead (pre.length + 1),
                  locks ++ [s]⟩) := by
            simp only [runWorker, stepWorker, hat, hocc, ne_eq, not_true_eq_false, if_false]
          simp only [List.length_append, List.length_singleton, List.append_assoc,
            List.singleton_append] at hrec
          cases res with
          | held m' locks' =>
            obtain ⟨n, hn⟩ := hrec
            refine ⟨1 + (1 + (1 + n)), ?_⟩
            rw [runWorker_add, h1, runWorker_add, h2, runWorker_add, h3]
            exact hn
          | failed m' =>
            obtain ⟨n, locks', hn⟩ := hrec
            refine ⟨1 + (1 + (1 + n)), locks', ?_⟩
            rw [runWorker_add, h1, runWorker_add, h2, runWorker_add, h3]
            exact hn
        · rw [if_pos (by simpa using hocc)] at h
          cases hu : pthread_mutex_unlock tid m1 s with
          | none => rw [hu] at h; cases h
          | some m2 =>
            rw [hu] at h
            simp only at h
            cases hr : release_locks tid m2 locks with
            | none => rw [hr] at h; cases h
            | some m' =>
              rw [hr] at h
              simp only [Option.map_some', Option.some.injEq] at h
              subst h
              have h3 : runWorker 1 ⟨th, m1⟩
                  ⟨tid, ⟨cid, pre ++ p :: rest⟩, Pc.check pre.length, locks⟩
                  = (⟨th, m1⟩, ⟨tid, ⟨cid, pre ++ p :: rest⟩, Pc.unlockCur pre.length,
                      locks⟩) := by
                simp only [runWorker, stepWorker, hat, ne_eq, hocc, not_false_eq_true, if_true]
              have h4 : runWorker 1 ⟨th, m1⟩
                  ⟨tid, ⟨cid, pre ++ p :: rest⟩, Pc.unlockCur pre.length, locks⟩
                  = (⟨th, m2⟩, ⟨tid, ⟨cid, pre ++ p :: rest⟩, Pc.release 0 0, locks⟩) := by
                simp only [runWorker, stepWorker, hat, hu]
              refine ⟨1 + (1 + (1 + (1 + (locks.length + 1)))), locks, ?_⟩
              rw [runWorker_add, h1, runWorker_add, h2, runWorker_add, h3, runWorker_add, h4]
              exact runWorker_release_all tid _ th 0 locks m2 m' hr

/-- A worker running alone reaches `done` with the return value and the shared
state that `try_book_seats` computes. -/
theorem runWorker_try_book_seats (tid : Nat) (st : Shared) (req : BookingRequest) :
    ∃ ret st' n w, try_book_seats tid st req = some (ret, st') ∧
      runWorker n st (startWorker tid req) = (st', w) ∧ w.pc = Pc.done ret := by
  obtain ⟨ret, st', h, _⟩ := try_book_seats_total tid st req
  refine ⟨ret, st', ?_⟩
  obtain ⟨cid, seats⟩ := req
  obtain ⟨th, m⟩ := st
  have h0 := h
  unfold try_book_seats at h
  simp only at h
  cases ha : acquireLoop tid th seats m [] with
  | none => rw [ha] at h; cases h
  | some res =>
    rw [ha] at h
    have hrun := runWorker_acquire tid cid th seats [] m [] res ha
    cases res with
    | failed m' =>
      simp only [Option.some.injEq, Prod.mk.injEq] at h
      obtain ⟨hret, hst⟩ := h
      subst hret hst
      obtain ⟨n, locks', hn⟩ := hrun
      simp only [List.nil_append, List.length_nil] at hn
      exact ⟨n, ⟨tid, ⟨cid, seats⟩, Pc.done 0, locks'⟩, h0, hn, rfl⟩
    | held m' locks' =>
      simp only at h
      obtain ⟨n, hn⟩ := hrun
      simp only [List.nil_append, List.length_nil] at hn
      cases hb : bookLoop cid seats th with
      | none => rw [hb] at h; cases h
      | some th' =>
        rw [hb] at h
        simp only at h
        cases hr : release_locks tid m' locks' with
        | none => rw [hr] at h; cases h
        | some m1 =>
          rw [hr] at h
          simp only [Option.some.injEq, Prod.mk.injEq] at h
          obtain ⟨hret, hst⟩ := h
          subst hret hst
          have hbk := runWorker_book tid cid m' locks' seats [] th th' hb
          simp only [List.nil_append, List.length_nil] at hbk
          have hrl := runWorker_release_all tid ⟨cid, seats⟩ th' 1 locks' m' m1 hr
          refine ⟨n + ((seats.length + 1) + (locks'.length + 1)),
            ⟨tid, ⟨cid, seats⟩, Pc.done 1, locks'⟩, h0, ?_, rfl⟩
          rw [runWorker_add]
          show runWorker _ (runWorker n ⟨th, m⟩ ⟨tid, ⟨cid, seats⟩, Pc.loopHead 0, []⟩).1
            (runWorker n ⟨th, m⟩ ⟨tid, ⟨cid, seats⟩, Pc.loopHead 0, []⟩).2 = _
          rw [hn, runWorker_add, hbk, hrl]

/-! ## Two workers racing for one seat -/

theorem phase_closed (x y : Phase) (h : x.compatible y = true) :
    (x.next y).compatible y = true ∧ x.compatible (y.next x) = true := by
  cases x <;> cases y <;> revert h <;> decide

theorem phase_rank_next (x y : Phase) : (x.next y).rank ≤ x.rank - 1 := by
  cases x <;> cases y <;> decide

theorem phase_not_both_holding (x y : Phase) (h : x.compatible y = true) :
    ¬ (x.holding = true ∧ y.holding = true) := by
  cases x <;> cases y <;> revert h <;> decide

theorem phase_not_both_committed (x y : Phase) (h : x.compatible y = true) :
    ¬ (x.committed = true ∧ y.committed = true) := by
  cases x <;> cases y <;> revert h <;> decide

theorem update_point {α : Type} (s : Seat) (a b d : α) :
    Function.update (fun cell : Seat => if cell = s then a else d) s b
      = fun cell => if cell = s then b else d := by
  funext c
  by_cases h : c = s <;> simp [Function.update, h]

theorem update_const {α : Type} (s : Seat) (b d : α) :
    Function.update (fun _ : Seat => d) s b = fun cell => if cell = s then b else d := by
  funext c
  by_cases h : c = s <;> simp [Function.update, h]

theorem stepWorker_phase_a (c1 c2 : Int) (p : Int × Int) (s : Seat) (hs : seatOf p = some s)
    (h2 : c2 ≠ 0) (x y : Phase) (h : x.compatible y = true) :
    stepWorker (phaseShared c1 c2 s x y) (phaseWorker 0 c1 p s x)
      = (phaseShared c1 c2 s (x.next y) y, phaseWorker 0 c1 p s (x.next y)) := by
  have hin : ¬ outOfRange p := by
    intro ho
    rw [(seatOf_eq_none_iff p).mpr ho] at hs
    cases hs
  cases x <;> cases y <;> first | (exfalso; revert h; decide) | skip
  all_goals
    simp [stepWorker, phaseWorker, phaseShared, Phase.next, Phase.holding, Phase.committed,
      Worker.seatAt, hs, hin, pthread_mutex_trylock, pthread_mutex_unlock, h2, update_point, update_const]

theorem stepWorker_phase_b (c1 c2 : Int) (p : Int × Int) (s : Seat) (hs : seatOf p = some s)
    (h1 : c1 ≠ 0) (x y : Phase) (h : x.compatible y = true) :
    stepWorker (phaseShared c1 c2 s x y) (phaseWorker 1 c2 p s y)
      = (phaseShared c1 c2 s x (y.next x), phaseWorker 1 c2 p s (y.next x)) := by
  have hin : ¬ outOfRange p := by
    intro ho
    rw [(seatOf_eq_none_iff p).mpr ho] at hs
    cases hs
  cases x <;> cases y <;> first | (exfalso; revert h; decide) | skip
  all_goals
    simp [stepWorker, phaseWorker, phaseShared, Phase.next, Phase.holding, Phase.committed,
      Worker.seatAt, hs, hin, pthread_mutex_trylock, pthread_mutex_unlock, h1, update_point,
      update_const]

theorem stepRace_phase (c1 c2 : Int) (p : Int × Int) (s : Seat) (hs : seatOf p = some s)
    (h1 : c1 ≠ 0) (h2 : c2 ≠ 0) (x y : Phase) (h : x.compatible y = true) :
    stepRace true (phaseRace c1 c2 p s x y) = phaseRace c1 c2 p s (x.next y) y ∧
      stepRace false (phaseRace c1 c2 p s x y) = phaseRace c1 c2 p s x (y.next x) := by
  constructor
  · simp only [stepRace, phaseRace, if_true, stepWorker_phase_a c1 c2 p s hs h2 x y h]
  · simp only [stepRace, phaseRace, Bool.false_eq_true, if_false,
      stepWorker_phase_b c1 c2 p s hs h1 x y h]

theorem runRace_phase (c1 c2 : Int) (p : Int × Int) (s : Seat) (hs : seatOf p = some s)
    (h1 : c1 ≠ 0) (h2 : c2 ≠ 0) :
    ∀ (sched : List Bool) (q : Phase × Phase), q.1.compatible q.2 = true →
      runRace sched (phaseRace c1 c2 p s q.1 q.2)
          = phaseRace c1 c2 p s (phaseRun sched q).1 (phaseRun sched q).2 ∧
        (phaseRun sched q).1.compatible (phaseRun sched q).2 = true := by
  intro sched
  induction sched with
  | nil => intro q h; exact ⟨rfl, h⟩
  | cons b rest ih =>
    intro q h
    cases b with
    | true =>
      simp only [runRace, phaseRun, (stepRace_phase c1 c2 p s hs h1 h2 q.1 q.2 h).1]
      exact ih (q.1.next q.2, q.2) (phase_closed q.1 q.2 h).1
    | false =>
      simp only [runRace, phaseRun, (stepRace_phase c1 c2 p s hs h1 h2 q.1 q.2 h).2]
      exact ih (q.1, q.2.next q.1) (phase_closed q.1 q.2 h).2

theorem phaseRun_rank :
    ∀ (sched : List Bool) (q : Phase × Phase) (k1 k2 : Nat),
      q.1.rank ≤ k1 → q.2.rank ≤ k2 → k1 ≤ sched.count true → k2 ≤ sched.count false →
      (phaseRun sched q).1.rank = 0 ∧ (phaseRun sched q).2.rank = 0 := by
  intro sched
  induction sched with
  | nil =>
    intro q k1 k2 h1 h2 c1 c2
    simp only [List.count_nil, Nat.le_zero_eq] at c1 c2
    subst c1 c2
    exact ⟨Nat.le_zero.mp h1, Nat.le_zero.mp h2⟩
  | cons b rest ih =>
    intro q k1 k2 h1 h2 c1 c2
    cases b with
    | true =>
      simp only [List.count_cons_self, List.count_cons_of_ne (by decide : (true : Bool) ≠ false)]
        at c1 c2
      have hr := phase_rank_next q.1 q.2
      exact ih (q.1.next q.2, q.2) (k1 - 1) k2 (by simp only; omega) h2 (by omega) c2
    | false =>
      simp only [List.count_cons_self, List.count_cons_of_ne (by decide : (false : Bool) ≠ true)]
        at c1 c2
      have hr := phase_rank_next q.2 q.1
      exact ih (q.1, q.2.next q.1) k1 (k2 - 1) h1 (by simp only; omega) c1 (by omega)

theorem phase_done_of_rank (t : Nat) (c : Int) (p : Int × Int) (s : Seat) (x : Phase)
    (h : x.rank = 0) : ∃ r, (phaseWorker t c p s x).pc = Pc.done r := by
  cases x <;> first | (exfalso; revert h; decide) | skip
  · exact ⟨1, rfl⟩
  · exact ⟨0, rfl⟩

theorem phase_final (c1 c2 : Int) (p : Int × Int) (s : Seat) (x y : Phase)
    (h : x.compatible y = true) (ra rb : Int)
    (ha : (phaseWorker 0 c1 p s x).pc = Pc.done ra)
    (hb : (phaseWorker 1 c2 p s y).pc = Pc.done rb) :
    ((ra = 1 ∧ rb = 0) ∨ (ra = 0 ∧ rb = 1)) ∧
      (∀ cell, (phaseShared c1 c2 s x y).theater cell
        = if cell = s then (if ra = 1 then c1 else c2) else 0) ∧
      (∀ cell, (phaseShared c1 c2 s x y).seat_mutexes cell = none) := by
  cases x <;> cases y <;> first | (exfalso; revert h; decide) | skip
  all_goals
    simp [phaseWorker] at ha hb
  all_goals
    subst ha hb
    simp [phaseShared, Phase.committed, Phase.holding]

/-- C6: two workers racing for one seat.  Threads 0 and 1, with non-zero customer
ids `c1` and `c2`, each request the same single in-range seat on the empty grid
with all mutexes free.  For every interleaving `sched` of their steps: if each
worker is scheduled at least 8 times then both have returned; and whenever both
have returned, exactly one returned 1 and the other 0, the grid is 0 everywhere
except at the requested seat, which holds the id of the worker that returned 1,
and every mutex is free. -/
theorem race_for_one_seat (p : Int × Int) (c1 c2 : Int) (hp : ¬ outOfRange p)
    (h1 : c1 ≠ 0) (h2 : c2 ≠ 0) (sched : List Bool) :
    (8 ≤ sched.count true → 8 ≤ sched.count false →
      ∃ ra rb, (runRace sched (startRace ⟨c1, [p]⟩ ⟨c2, [p]⟩)).a.pc = Pc.done ra ∧
        (runRace sched (startRace ⟨c1, [p]⟩ ⟨c2, [p]⟩)).b.pc = Pc.done rb) ∧
    (∀ ra rb, (runRace sched (startRace ⟨c1, [p]⟩ ⟨c2, [p]⟩)).a.pc = Pc.done ra →
      (runRace sched (startRace ⟨c1, [p]⟩ ⟨c2, [p]⟩)).b.pc = Pc.done rb →
      ((ra = 1 ∧ rb = 0) ∨ (ra = 0 ∧ rb = 1)) ∧
      (∀ cell, (runRace sched (startRace ⟨c1, [p]⟩ ⟨c2, [p]⟩)).shared.theater cell
        = if seatOf p = some cell then (if ra = 1 then c1 else c2) else 0) ∧
      (∀ cell, (runRace sched (startRace ⟨c1, [p]⟩ ⟨c2, [p]⟩)).shared.seat_mutexes cell
        = none)) := by
  obtain ⟨s, hs⟩ : ∃ s, seatOf p = some s := by
    cases hs : seatOf p with
    | none => exact absurd ((seatOf_eq_none_iff p).mp hs) hp
    | some s => exact ⟨s, rfl⟩
  have hstart : startRace ⟨c1, [p]⟩ ⟨c2, [p]⟩ = phaseRace c1 c2 p s Phase.p0 Phase.p0 := by
    simp only [startRace, phaseRace, startWorker, phaseWorker, phaseShared, initShared,
      Phase.committed, Phase.holding, Bool.false_eq_true, if_false, ite_self]
    rfl
  obtain ⟨hrun, hcomp⟩ := runRace_phase c1 c2 p s hs h1 h2 sched (Phase.p0, Phase.p0) (by decide)
  rw [hstart, hrun]
  refine ⟨?_, ?_⟩
  · intro hc1 hc2
    obtain ⟨hr1, hr2⟩ := phaseRun_rank sched (Phase.p0, Phase.p0) 8 8 (by decide) (by decide)
      hc1 hc2
    obtain ⟨ra, hra⟩ := phase_done_of_rank 0 c1 p s _ hr1
    obtain ⟨rb, hrb⟩ := phase_done_of_rank 1 c2 p s _ hr2
    exact ⟨ra, rb, hra, hrb⟩
  · intro ra rb ha hb
    obtain ⟨hx, hth, hm⟩ := phase_final c1 c2 p s _ _ hcomp ra rb ha hb
    refine ⟨hx, ?_, hm⟩
    intro cell
    show (phaseShared c1 c2 s _ _).theater cell = _
    rw [hth cell, hs]
    by_cases hc : cell = s
    · subst hc; simp
    · have : ¬ (some s = some cell) := by
        intro h
        exact hc (Option.some.inj h).symm
      simp [hc, this]

theorem race_for_one_seat_witness :
    ∃ ra rb,
      (runRace [true, false, true, false, true, false, true, false, true, false, true, false,
          true, false, true, false] (startRace ⟨1, [(0, 0)]⟩ ⟨2, [(0, 0)]⟩)).a.pc = Pc.done ra ∧
      (runRace [true, false, true, false, true, false, true, false, true, false, true, false,
          true, false, true, false] (startRace ⟨1, [(0, 0)]⟩ ⟨2, [(0, 0)]⟩)).b.pc = Pc.done rb ∧
      ((ra = 1 ∧ rb = 0) ∨ (ra = 0 ∧ rb = 1)) ∧
      (∀ cell, (runRace [true, false, true, false, true, false, true, false, true, false, true,
          false, true, false, true, false]
            (startRace ⟨1, [(0, 0)]⟩ ⟨2, [(0, 0)]⟩)).shared.theater cell
        = if seatOf (0, 0) = some cell then (if ra = 1 then 1 else 2) else 0) ∧
      (∀ cell, (runRace [true, false, true, false, true, false, true, false, true, false, true,
          false, true, false, true, false]
            (startRace ⟨1, [(0, 0)]⟩ ⟨2, [(0, 0)]⟩)).shared.seat_mutexes cell = none) :=
  have h := race_for_one_seat (0, 0) 1 2 (by decide) (by decide) (by decide)
    [true, false, true, false, true, false, true, false, true, false, true, false,
      true, false, true, false]
  match h.1 (by decide) (by decide) with
  | ⟨ra, rb, ha, hb⟩ => ⟨ra, rb, ha, hb, h.2 ra rb ha hb⟩

/-! ## The input loop -/

theorem wrap32_of_fits (v : Int) (h1 : -2147483648 ≤ v) (h2 : v ≤ 2147483647) :
    wrap32 v = v := by
  unfold wrap32
  omega

theorem digitChar_props (d : Nat) (h : d < 10) :
    (digitChar d).isDigit = true ∧ (digitChar d).toNat - 48 = d ∧ digitChar d ≠ '-' ∧
      digitChar d ≠ '+' ∧ isspace (digitChar d) = false ∧ digitChar d ≠ ',' ∧
      digitChar d ≠ ' ' ∧ digitChar d ≠ '\n' ∧ digitChar d ≠ '#' ∧
      digitChar d ≠ Char.ofNat 0 := by
  interval_cases d <;> decide

theorem atoiDigits_digits (r : List Char) (hr : ∀ c, r.head? = some c → c.isDigit = false) :
    ∀ (ds : List Nat) (acc : Nat), (∀ d ∈ ds, d < 10) →
      atoiDigits (ds.map digitChar ++ r) acc = ds.foldl (fun a d => 10 * a + d) acc := by
  intro ds
  induction ds with
  | nil =>
    intro acc _
    cases r with
    | nil => rfl
    | cons c cs =>
      have := hr c rfl
      simp [atoiDigits, this]
  | cons d ds ih =>
    intro acc h
    have hd := digitChar_props d (h d (List.mem_cons_self _ _))
    simp only [List.map_cons, List.cons_append, atoiDigits, hd.1, if_true, hd.2.1,
      List.foldl_cons]
    exact ih _ (fun x hx => h x (List.mem_cons_of_mem _ hx))

theorem atoi_numeral (n : Numeral) (hn : n.WF) (r : List Char)
    (hr : ∀ c, r.head? = some c → c.isDigit = false) :
    atoi (n.text ++ r) = wrap32 n.value := by
  obtain ⟨neg, ds⟩ := n
  obtain ⟨hne, hlt⟩ := hn
  simp only at hne hlt
  cases neg with
  | true =>
    have h1 : isspace '-' = false := by decide
    simp only [atoi, Numeral.text, if_true, List.cons_append, List.nil_append,
      List.dropWhile_cons, h1, Bool.false_eq_true, if_false, Numeral.value, Numeral.magnitude,
      atoiDigits_digits r hr ds 0 hlt]
  | false =>
    cases ds with
    | nil => exact absurd rfl hne
    | cons d ds =>
      have hd := digitChar_props d (hlt d (List.mem_cons_self _ _))
      have h2 := atoiDigits_digits r hr (d :: ds) 0 hlt
      simp only [List.map_cons, List.cons_append] at h2
      simp only [atoi, Numeral.text, Bool.false_eq_true, if_false, List.nil_append,
        List.map_cons, List.cons_append, List.dropWhile_cons, hd.2.2.2.2.1, hd.2.2.1,
        hd.2.2.2.1, h2, Numeral.value, Numeral.magnitude]

theorem dropWhile_append_all {α : Type} (p : α → Bool) :
    ∀ (a b : List α), (∀ x ∈ a, p x = true) → (a ++ b).dropWhile p = b.dropWhile p := by
  intro a
  induction a with
  | nil => intro b _; rfl
  | cons x xs ih =>
    intro b h
    simp only [List.cons_append, List.dropWhile_cons, h x (List.mem_cons_self _ _), if_true]
    exact ih b (fun y hy => h y (List.mem_cons_of_mem _ hy))

theorem takeWhile_append_all {α : Type} (p : α → Bool) :
    ∀ (a b : List α), (∀ x ∈ a, p x = true) → (a ++ b).takeWhile p = a ++ b.takeWhile p := by
  intro a
  induction a with
  | nil => intro b _; rfl
  | cons x xs ih =>
    intro b h
    simp only [List.cons_append, List.takeWhile_cons, h x (List.mem_cons_self _ _), if_true]
    rw [ih b (fun y hy => h y (List.mem_cons_of_mem _ hy))]

theorem dropWhile_stop {α : Type} (p : α → Bool) (b : List α)
    (h : ∀ c, b.head? = some c → p c = false) : b.dropWhile p = b ∧ b.takeWhile p = [] := by
  cases b with
  | nil => exact ⟨rfl, rfl⟩
  | cons c cs =>
    have := h c rfl
    simp [List.dropWhile_cons, List.takeWhile_cons, this]

/-- `strtok` on a string made of delimiters, then a token, then a rest that is
empty or starts with a delimiter. -/
theorem strtok_token (delims junk tok r : List Char)
    (hj : ∀ c ∈ junk, c ∈ delims) (ht : ∀ c ∈ tok, c ∉ delims) (hne : tok ≠ [])
    (hr : ∀ c, r.head? = some c → c ∈ delims) :
    strtok delims (junk ++ tok ++ r) = some (tok, r.tail) := by
  have h1 : (junk ++ tok ++ r).dropWhile (fun c => decide (c ∈ delims)) = tok ++ r := by
    rw [List.append_assoc, dropWhile_append_all _ junk (tok ++ r) (fun c hc => by simp [hj c hc])]
    refine (dropWhile_stop _ (tok ++ r) ?_).1
    intro c hc
    cases tok with
    | nil => exact absurd rfl hne
    | cons t ts =>
      simp only [List.cons_append, List.head?_cons, Option.some.injEq] at hc
      subst hc
      simp [ht t (List.mem_cons_self _ _)]
  have h2 : (tok ++ r).takeWhile (fun c => !decide (c ∈ delims)) = tok := by
    rw [takeWhile_append_all _ tok r (fun c hc => by simp [ht c hc]),
      (dropWhile_stop _ r (fun c hc => by simp [hr c hc])).2, List.append_nil]
  have h3 : (tok ++ r).dropWhile (fun c => !decide (c ∈ delims)) = r := by
    rw [dropWhile_append_all _ tok r (fun c hc => by simp [ht c hc])]
    exact (dropWhile_stop _ r (fun c hc => by simp [hr c hc])).1
  unfold strtok
  rw [h1]
  cases htr : tok ++ r with
  | nil =>
    cases tok with
    | nil => exact absurd rfl hne
    | cons t ts => simp at htr
  | cons c cs =>
    simp only
    rw [← htr, h2, h3]

theorem strtok_none (delims s : List Char) (hs : ∀ c ∈ s, c ∈ delims) :
    strtok delims s = none := by
  have h := dropWhile_append_all (fun c => decide (c ∈ delims)) s [] (fun c hc => by simp [hs c hc])
  rw [List.append_nil] at h
  unfold strtok
  rw [h]
  rfl

theorem numeral_text_chars (n : Numeral) (hn : n.WF) :
    n.text ≠ [] ∧ ∀ c ∈ n.text, c ∉ seatDelims ∧ c ≠ ',' ∧ c ≠ '#' ∧ c ≠ '\n' ∧
      c ≠ Char.ofNat 0 := by
  obtain ⟨neg, ds⟩ := n
  obtain ⟨hne, hlt⟩ := hn
  simp only at hne hlt
  refine ⟨?_, ?_⟩
  · cases ds with
    | nil => exact absurd rfl hne
    | cons d ds => cases neg <;> simp [Numeral.text]
  · intro c hc
    simp only [Numeral.text, List.mem_append, List.mem_map] at hc
    rcases hc with hc | ⟨d, hd, rfl⟩
    · cases neg with
      | true =>
        simp only [if_true, List.mem_singleton] at hc
        subst hc
        decide
      | false => simp at hc
    · have h := digitChar_props d (hlt d hd)
      refine ⟨?_, h.2.2.2.2.2.1, h.2.2.2.2.2.2.2.2.1, h.2.2.2.2.2.2.2.1, h.2.2.2.2.2.2.2.2.2⟩
      simp only [seatDelims, List.mem_cons, List.mem_singleton, List.not_mem_nil, or_false,
        not_or]
      exact ⟨h.2.2.2.2.2.1, h.2.2.2.2.2.2.1, h.2.2.2.2.2.2.2.1⟩

theorem spaces_chars (k : Nat) : ∀ c ∈ spaces k, c = ' ' := by
  intro c hc
  exact List.eq_of_mem_replicate hc

theorem sepText_chars (k1 k2 : Nat) : ∀ c ∈ sepText k1 k2, c = ' ' ∨ c = ',' := by
  intro c hc
  simp only [sepText, List.mem_append, List.mem_cons] at hc
  rcases hc with h | h | h
  · exact Or.inl (spaces_chars k1 c h)
  · exact Or.inr h
  · exact Or.inl (spaces_chars k2 c h)

theorem sepText_ne_nil (k1 k2 : Nat) : sepText k1 k2 ≠ [] := by
  simp [sepText]

theorem mem_seatDelims_of (c : Char) (h : c = ' ' ∨ c = ',' ∨ c = '\n') : c ∈ seatDelims := by
  rcases h with h | h | h <;> subst h <;> decide

theorem mem_tail {α : Type} (l : List α) (x : α) (h : x ∈ l.tail) : x ∈ l := by
  cases l with
  | nil => simp at h
  | cons a as => exact List.mem_cons_of_mem _ h

theorem tail_append_ne {α : Type} (a b : List α) (h : a ≠ []) : (a ++ b).tail = a.tail ++ b := by
  cases a with
  | nil => exact absurd rfl h
  | cons x xs => rfl

theorem head_append_ne {α : Type} (a b : List α) (h : a ≠ []) : (a ++ b).head? = a.head? := by
  cases a with
  | nil => exact absurd rfl h
  | cons x xs => rfl

theorem mem_of_head {α : Type} (l : List α) (c : α) (h : l.head? = some c) : c ∈ l := by
  cases l with
  | nil => simp at h
  | cons x xs =>
    simp only [List.head?_cons, Option.some.injEq] at h
    subst h
    exact List.mem_cons_self _ _

theorem sepText_delims (k1 k2 : Nat) : ∀ c ∈ sepText k1 k2, c ∈ seatDelims := by
  intro c hc
  rcases sepText_chars k1 k2 c hc with h | h
  · exact mem_seatDelims_of c (Or.inl h)
  · exact mem_seatDelims_of c (Or.inr (Or.inl h))

theorem flatten_text_cons (q : SeatText) (qs : List SeatText) :
    ((q :: qs).map SeatText.text).flatten = sepText q.before1 q.after1 ++ bodyText (q :: qs) := by
  simp [SeatText.text, bodyText, List.append_assoc]

/-- What the loop of lines 80-90 stores for the groups `qs`, whatever strings of
delimiters stand in front of them and after them. -/
theorem seatLoop_body :
    ∀ (qs : List SeatText) (budget : Nat) (j tail : List Char) (acc : List (Int × Int)),
      (∀ q ∈ qs, q.aisle.WF ∧ q.seat.WF) → qs.length ≤ budget →
      (∀ c ∈ j, c ∈ seatDelims) → (∀ c ∈ tail, c ∈ seatDelims) →
      seatLoop budget (j ++ bodyText qs ++ tail) acc
        = acc ++ qs.map (fun q => (wrap32 (wrap32 q.aisle.value - 1),
            wrap32 (wrap32 q.seat.value - 1))) := by
  intro qs
  induction qs with
  | nil =>
    intro budget j tail acc _ _ hj ht
    have hall : ∀ c ∈ j ++ bodyText [] ++ tail, c ∈ seatDelims := by
      intro c hc
      simp only [bodyText, List.append_nil, List.mem_append] at hc
      rcases hc with h | h
      · exact hj c h
      · exact ht c h
    cases budget with
    | zero => simp [seatLoop]
    | succ b => simp only [seatLoop, strtok_none seatDelims _ hall, List.map_nil, List.append_nil]
  | cons q qs ih =>
    intro budget j tail acc hwf hlen hj ht
    obtain ⟨hwa, hws⟩ := hwf q (List.mem_cons_self _ _)
    have hta := numeral_text_chars q.aisle hwa
    have hts := numeral_text_chars q.seat hws
    cases budget with
    | zero => simp at hlen
    | succ b =>
      -- the string after the aisle numeral
      have hsep := sepText_ne_nil q.before2 q.after2
      have e1 : j ++ bodyText (q :: qs) ++ tail
          = j ++ q.aisle.text
            ++ (sepText q.before2 q.after2
              ++ (q.seat.text ++ ((qs.map SeatText.text).flatten ++ tail))) := by
        simp [bodyText, List.append_assoc]
      have s1 := strtok_token seatDelims j q.aisle.text
        (sepText q.before2 q.after2 ++ (q.seat.text ++ ((qs.map SeatText.text).flatten ++ tail)))
        hj (fun c hc => (hta.2 c hc).1) hta.1
        (fun c hc => by
          rw [head_append_ne _ _ hsep] at hc
          exact sepText_delims _ _ c (mem_of_head _ c hc))
      rw [tail_append_ne _ _ hsep] at s1
      -- the string after the seat numeral
      have hrest : ∀ c, ((qs.map SeatText.text).flatten ++ tail).head? = some c →
          c ∈ seatDelims := by
        intro c hc
        cases qs with
        | nil =>
          simp only [List.map_nil, List.flatten_nil, List.nil_append] at hc
          exact ht c (mem_of_head _ c hc)
        | cons q' qs' =>
          rw [flatten_text_cons, List.append_assoc,
            head_append_ne _ _ (sepText_ne_nil _ _)] at hc
          exact sepText_delims _ _ c (mem_of_head _ c hc)
      have s2 := strtok_token seatDelims (sepText q.before2 q.after2).tail q.seat.text
        ((qs.map SeatText.text).flatten ++ tail)
        (fun c hc => sepText_delims _ _ c (mem_tail _ c hc))
        (fun c hc => (hts.2 c hc).1) hts.1 hrest
      rw [List.append_assoc] at s2
      have a1 : atoi q.aisle.text = wrap32 q.aisle.value := by
        have := atoi_numeral q.aisle hwa [] (fun c hc => by simp at hc)
        rwa [List.append_nil] at this
      have a2 : atoi q.seat.text = wrap32 q.seat.value := by
        have := atoi_numeral q.seat hws [] (fun c hc => by simp at hc)
        rwa [List.append_nil] at this
      -- the string handed to the next iteration
      have hnext : ∃ j' tail', (∀ c ∈ j', c ∈ seatDelims) ∧ (∀ c ∈ tail', c ∈ seatDelims) ∧
          ((qs.map SeatText.text).flatten ++ tail).tail = j' ++ bodyText qs ++ tail' := by
        cases qs with
        | nil =>
          refine ⟨[], tail.tail, fun c hc => by simp at hc, fun c hc => ht c (mem_tail _ c hc), ?_⟩
          simp [bodyText]
        | cons q' qs' =>
          refine ⟨(sepText q'.before1 q'.after1).tail, tail,
            fun c hc => sepText_delims _ _ c (mem_tail _ c hc), ht, ?_⟩
          rw [flatten_text_cons, List.append_assoc, tail_append_ne _ _ (sepText_ne_nil _ _),
            List.append_assoc]
      obtain ⟨j', tail', hj', ht', hform⟩ := hnext
      rw [e1]
      simp only [seatLoop, s1, s2, a1, a2, hform]
      rw [ih b j' tail' _ (fun x hx => hwf x (List.mem_cons_of_mem _ hx))
        (by simp only [List.length_cons] at hlen; omega) hj' ht']
      simp

theorem readLine_line :
    ∀ (n : Nat) (l r : List Char), '\n' ∉ l → l.length + 1 ≤ n →
      readLine n (l ++ '\n' :: r) = (l ++ ['\n'], r) := by
  intro n l
  induction l generalizing n with
  | nil =>
    intro r _ hn
    cases n with
    | zero => omega
    | succ n => simp [readLine]
  | cons c cs ih =>
    intro r hc hn
    cases n with
    | zero => omega
    | succ n =>
      have hne : c ≠ '\n' := fun h => hc (by rw [h]; exact List.mem_cons_self _ _)
      have hcs : '\n' ∉ cs := fun h => hc (List.mem_cons_of_mem _ h)
      have ih' := ih n r hcs (by simp only [List.length_cons] at hn; omega)
      rw [List.cons_append, readLine, if_neg hne, ih']
      rfl

theorem readLine_eof :
    ∀ (n : Nat) (l : List Char), '\n' ∉ l → l.length ≤ n → readLine n l = (l, []) := by
  intro n l
  induction l generalizing n with
  | nil =>
    intro _ _
    cases n <;> rfl
  | cons c cs ih =>
    intro hc hn
    cases n with
    | zero => simp at hn
    | succ n =>
      have hne : c ≠ '\n' := fun h => hc (by rw [h]; exact List.mem_cons_self _ _)
      have hcs : '\n' ∉ cs := fun h => hc (List.mem_cons_of_mem _ h)
      have ih' := ih n hcs (by simp only [List.length_cons] at hn; omega)
      rw [readLine, if_neg hne, ih']

/-- The part of a line in front of the comment and the newline. -/
theorem lineText_split (id : Numeral) (pairs : List SeatText) (trail : Nat)
    (comment : Option (List Char)) (newline : Bool) :
    lineText id pairs trail comment newline
      = (id.text ++ (pairs.map SeatText.text).flatten ++ spaces trail)
        ++ (commentText comment ++ (if newline then ['\n'] else [])) := by
  simp [lineText, List.append_assoc]

theorem core_chars (id : Numeral) (pairs : List SeatText) (trail : Nat) (hid : id.WF)
    (hp : ∀ q ∈ pairs, q.aisle.WF ∧ q.seat.WF) :
    ∀ c ∈ id.text ++ (pairs.map SeatText.text).flatten ++ spaces trail,
      c ≠ '#' ∧ c ≠ '\n' ∧ c ≠ Char.ofNat 0 := by
  have hsp : ∀ c : Char, c = ' ' → c ≠ '#' ∧ c ≠ '\n' ∧ c ≠ Char.ofNat 0 := by
    intro c h; subst h; decide
  have hcm : ∀ c : Char, c = ',' → c ≠ '#' ∧ c ≠ '\n' ∧ c ≠ Char.ofNat 0 := by
    intro c h; subst h; decide
  have hnum : ∀ n : Numeral, n.WF → ∀ c ∈ n.text, c ≠ '#' ∧ c ≠ '\n' ∧ c ≠ Char.ofNat 0 := by
    intro n hn c hc
    have := (numeral_text_chars n hn).2 c hc
    exact ⟨this.2.2.1, this.2.2.2.1, this.2.2.2.2⟩
  have hsep : ∀ k1 k2, ∀ c ∈ sepText k1 k2, c ≠ '#' ∧ c ≠ '\n' ∧ c ≠ Char.ofNat 0 := by
    intro k1 k2 c hc
    rcases sepText_chars k1 k2 c hc with h | h
    · exact hsp c h
    · exact hcm c h
  intro c hc
  simp only [List.mem_append, List.mem_flatten, List.mem_map] at hc
  rcases hc with (hc | ⟨l, ⟨q, hq, rfl⟩, hc⟩) | hc
  · exact hnum id hid c hc
  · simp only [SeatText.text, List.mem_append] at hc
    rcases hc with ((hc | hc) | hc) | hc
    · exact hsep _ _ c hc
    · exact hnum _ (hp q hq).1 c hc
    · exact hsep _ _ c hc
    · exact hnum _ (hp q hq).2 c hc
  · exact hsp c (spaces_chars trail c hc)

/-- What the loop body stores for a line of the form `id,a1,s1,...,an,sn`. -/
theorem processLine_line (id : Numeral) (pairs : List SeatText) (trail : Nat)
    (comment : Option (List Char)) (newline : Bool) (reqs : List BookingRequest)
    (hid : id.WF) (hp : ∀ q ∈ pairs, q.aisle.WF ∧ q.seat.WF)
    (hn : 1 ≤ pairs.length) (hmax : pairs.length ≤ MAX_SEATS_PER_REQUEST)
    (hroom : reqs.length < MAX_LINES) :
    processLine (lineText id pairs trail comment newline) reqs
      = some (reqs ++ [⟨wrap32 id.value,
          pairs.map (fun q => (wrap32 (wrap32 q.aisle.value - 1),
            wrap32 (wrap32 q.seat.value - 1)))⟩]) := by
  have hidc := numeral_text_chars id hid
  have hcore := core_chars id pairs trail hid hp
  -- the first character
  have hhead : ¬ ((lineText id pairs trail comment newline).head? = some '#' ∨
      (lineText id pairs trail comment newline).head? = some '\n') := by
    have h1 : (lineText id pairs trail comment newline).head? = id.text.head? := by
      simp only [lineText, List.append_assoc]
      exact head_append_ne _ _ hidc.1
    rw [h1]
    rintro (h | h)
    · exact (hidc.2 _ (mem_of_head _ _ h)).2.2.1 rfl
    · exact (hidc.2 _ (mem_of_head _ _ h)).2.2.2.1 rfl
  -- the string left after cutting at NUL and at '#'
  have htext : ∃ e : List Char, (∀ c ∈ e, c ∈ seatDelims) ∧
      ((lineText id pairs trail comment newline).takeWhile (fun c => c != Char.ofNat 0)).takeWhile
          (fun c => c != '#')
        = (id.text ++ (pairs.map SeatText.text).flatten ++ spaces trail) ++ e := by
    rw [lineText_split,
      takeWhile_append_all _ _ _ (fun c hc => by simp [(hcore c hc).2.2])]
    cases comment with
    | some cm =>
      refine ⟨[], fun c hc => by simp at hc, ?_⟩
      have h0 : (('#' : Char) != Char.ofNat 0) = true := by decide
      simp only [commentText, List.cons_append, List.takeWhile_cons, h0, if_true]
      rw [takeWhile_append_all _ _ _ (fun c hc => by simp [(hcore c hc).1])]
      simp
    | none =>
      cases newline with
      | true =>
        refine ⟨['\n'], fun c hc => by
          rw [List.mem_singleton] at hc; subst hc; decide, ?_⟩
        have h0 : (('\n' : Char) != Char.ofNat 0) = true := by decide
        have h1 : (('\n' : Char) != '#') = true := by decide
        simp only [commentText, List.nil_append, if_true, List.takeWhile_cons, h0,
          List.takeWhile_nil]
        rw [takeWhile_append_all _ _ _ (fun c hc => by simp [(hcore c hc).1])]
        simp only [List.takeWhile_cons, h1, if_true, List.takeWhile_nil]
      | false =>
        refine ⟨[], fun c hc => by simp at hc, ?_⟩
        simp only [commentText, List.nil_append, Bool.false_eq_true, if_false,
          List.takeWhile_nil, List.append_nil]
        have := takeWhile_append_all (fun c : Char => c != '#')
          (id.text ++ (pairs.map SeatText.text).flatten ++ spaces trail) []
          (fun c hc => by simp [(hcore c hc).1])
        simpa using this
  obtain ⟨e, he, htext⟩ := htext
  cases pairs with
  | nil => simp at hn
  | cons q qs =>
    -- the first token and the rest
    have hform : id.text ++ ((q :: qs).map SeatText.text).flatten ++ spaces trail ++ e
        = [] ++ (id.text ++ spaces q.before1)
          ++ (',' :: (spaces q.after1 ++ bodyText (q :: qs) ++ (spaces trail ++ e))) := by
      rw [flatten_text_cons]
      simp [sepText, List.append_assoc]
    have htok := strtok_token [','] [] (id.text ++ spaces q.before1)
      (',' :: (spaces q.after1 ++ bodyText (q :: qs) ++ (spaces trail ++ e)))
      (fun c hc => by simp at hc)
      (fun c hc => by
        rw [List.mem_singleton]
        rcases List.mem_append.mp hc with h | h
        · exact (hidc.2 c h).2.1
        · rw [spaces_chars _ c h]; decide)
      (by
        intro h
        exact hidc.1 (List.append_eq_nil.mp h).1)
      (fun c hc => by
        simp only [List.head?_cons, Option.some.injEq] at hc
        subst hc
        exact List.mem_singleton.mpr rfl)
    have hid' : atoi (id.text ++ spaces q.before1) = wrap32 id.value :=
      atoi_numeral id hid (spaces q.before1) (fun c hc => by
        rw [spaces_chars _ c (mem_of_head _ c hc)]; decide)
    have hseats := seatLoop_body (q :: qs) MAX_SEATS_PER_REQUEST (spaces q.after1) (spaces trail ++ e)
      [] hp hmax
      (fun c hc => mem_seatDelims_of c (Or.inl (spaces_chars _ c hc)))
      (fun c hc => by
        rcases List.mem_append.mp hc with h | h
        · exact mem_seatDelims_of c (Or.inl (spaces_chars _ c h))
        · exact he c h)
    unfold processLine
    rw [if_neg hhead, if_neg (by omega)]
    simp only [htext]
    rw [hform, htok]
    simp only [List.tail_cons, hid', hseats, List.nil_append, List.map_cons, List.length_cons,
      gt_iff_lt, Nat.zero_lt_succ, if_true]

theorem readLine_rest_le : ∀ (n : Nat) (input : List Char),
    (readLine n input).2.length ≤ input.length := by
  intro n
  induction n with
  | zero => intro input; simp [readLine]
  | succ n ih =>
    intro input
    cases input with
    | nil => simp [readLine]
    | cons c rest =>
      rw [readLine]
      split
      · simp
      · have := ih rest
        simp only [List.length_cons]
        omega

theorem fgets_rest_lt (input line rest : List Char) (h : fgets 256 input = some (line, rest)) :
    rest.length < input.length := by
  cases input with
  | nil => simp [fgets] at h
  | cons c cs =>
    simp only [fgets, Nat.reduceSub, Option.some.injEq] at h
    have hr : rest = (readLine 255 (c :: cs)).2 := by rw [h]
    rw [hr, readLine]
    split
    · simp
    · have := readLine_rest_le 254 cs
      simp only [List.length_cons]
      omega

/-- The input loop never stops for lack of fuel: any two amounts of fuel that are
at least the length of the unread input give the same result. -/
theorem readLoop_fuel : ∀ (f1 f2 : Nat) (input : List Char) (reqs : List BookingRequest),
    input.length ≤ f1 → input.length ≤ f2 → readLoop f1 input reqs = readLoop f2 input reqs := by
  intro f1
  induction f1 with
  | zero =>
    intro f2 input reqs h1 _
    have hnil : input = [] := List.length_eq_zero.mp (Nat.le_zero.mp h1)
    subst hnil
    cases f2 with
    | zero => rfl
    | succ f2 => simp [readLoop, fgets]
  | succ f1 ih =>
    intro f2 input reqs h1 h2
    cases f2 with
    | zero =>
      have hnil : input = [] := List.length_eq_zero.mp (Nat.le_zero.mp h2)
      subst hnil
      simp [readLoop, fgets]
    | succ f2 =>
      simp only [readLoop]
      cases hf : fgets 256 input with
      | none => rfl
      | some lr =>
        obtain ⟨line, rest⟩ := lr
        have hlt := fgets_rest_lt input line rest hf
        simp only
        cases processLine line reqs with
        | none => rfl
        | some reqs1 => exact ih f2 rest reqs1 (by omega) (by omega)

/-- C9 (as stated) fails at the smallest `int`: the line `1,-2147483648,1` has the
stated form with every numeral fitting an `int`, but the loop stores the aisle
coordinate 2147483647 (the 32-bit result of `aisle - 1`), not -2147483649. -/
theorem int_min_coordinate_wraps :
    lineText ⟨false, [1]⟩ [⟨0, 0, ⟨true, [2, 1, 4, 7, 4, 8, 3, 6, 4, 8]⟩, 0, 0, ⟨false, [1]⟩⟩]
        0 none true = "1,-2147483648,1\n".toList ∧
      (Numeral.mk true [2, 1, 4, 7, 4, 8, 3, 6, 4, 8]).WF ∧
      (Numeral.mk true [2, 1, 4, 7, 4, 8, 3, 6, 4, 8]).fitsInt ∧
      (Numeral.mk false [1]).WF ∧ (Numeral.mk false [1]).fitsInt ∧
      processLine "1,-2147483648,1\n".toList [] = some [⟨1, [(2147483647, 0)]⟩] ∧
      processLine "1,-2147483648,1\n".toList []
        ≠ some [⟨(Numeral.mk false [1]).value,
            [⟨0, 0, ⟨true, [2, 1, 4, 7, 4, 8, 3, 6, 4, 8]⟩, 0, 0, ⟨false, [1]⟩⟩].map
              SeatText.coords⟩] := by
  refine ⟨by decide, by decide, by decide, by decide, by decide, by decide, by decide⟩

/-- C9 (amended): parsing converts 1-based input coordinates to 0-based records.
For every input line `id,a1,s1,...,an,sn` (decimal numerals that fit an `int`,
every coordinate numeral greater than the smallest `int`, separated by commas
with optional spaces, `1 ≤ n ≤ 60`, optionally followed by spaces, a `#` comment
and a newline) that is shorter than the 256-byte buffer, read while fewer than
`MAX_LINES` requests are stored: `fgets` puts exactly this line in the buffer
and the loop body stores exactly one more request, with `customer_id = id` and
`seats[i] = (a_i - 1, s_i - 1)` in the order given. -/
theorem parse_line_stores_request (id : Numeral) (pairs : List SeatText) (trail : Nat)
    (comment : Option (List Char)) (newline : Bool) (rest : List Char)
    (reqs : List BookingRequest)
    (hid : id.WF ∧ id.fitsInt)
    (hpairs : ∀ q ∈ pairs,
      (q.aisle.WF ∧ q.aisle.fitsInt ∧ -2147483648 < q.aisle.value) ∧
        (q.seat.WF ∧ q.seat.fitsInt ∧ -2147483648 < q.seat.value))
    (hn : 1 ≤ pairs.length ∧ pairs.length ≤ MAX_SEATS_PER_REQUEST)
    (hlen : (lineText id pairs trail comment newline).length < 256)
    (hcomment : ∀ c, comment = some c → '\n' ∉ c)
    (heof : newline = false → rest = [])
    (hroom : reqs.length < MAX_LINES) :
    fgets 256 (lineText id pairs trail comment newline ++ rest)
        = some (lineText id pairs trail comment newline, rest) ∧
      processLine (lineText id pairs trail comment newline) reqs
        = some (reqs ++ [⟨id.value, pairs.map SeatText.coords⟩]) := by
  have hp : ∀ q ∈ pairs, q.aisle.WF ∧ q.seat.WF := fun q hq =>
    ⟨(hpairs q hq).1.1, (hpairs q hq).2.1⟩
  refine ⟨?_, ?_⟩
  · -- the line has no newline before its end
    have hcore := core_chars id pairs trail hid.1 hp
    have hidc := numeral_text_chars id hid.1
    have hpre : '\n' ∉ (id.text ++ (pairs.map SeatText.text).flatten ++ spaces trail)
        ++ commentText comment := by
      intro hmem
      rcases List.mem_append.mp hmem with h | h
      · exact (hcore _ h).2.1 rfl
      · cases comment with
        | none => simp [commentText] at h
        | some c =>
          rcases List.mem_cons.mp h with h | h
          · exact absurd h (by decide)
          · exact hcomment c rfl h
    have hcons : ∃ c cs, lineText id pairs trail comment newline ++ rest = c :: cs := by
      cases hl : lineText id pairs trail comment newline ++ rest with
      | nil =>
        have h1 := (List.append_eq_nil.mp hl).1
        simp only [lineText, List.append_eq_nil] at h1
        exact absurd h1.1.1.1.1 hidc.1
      | cons c cs => exact ⟨c, cs, rfl⟩
    obtain ⟨c, cs, hc⟩ := hcons
    have hfg : fgets 256 (lineText id pairs trail comment newline ++ rest)
        = some (readLine 255 (lineText id pairs trail comment newline ++ rest)) := by
      rw [hc]
      rfl
    rw [hfg]
    have hsplit := lineText_split id pairs trail comment newline
    rw [← List.append_assoc] at hsplit
    cases newline with
    | true =>
      simp only [if_true] at hsplit
      rw [hsplit] at hlen ⊢
      rw [List.append_assoc, List.singleton_append,
        readLine_line 255 _ rest hpre (by
          simp only [List.length_append, List.length_singleton] at hlen ⊢
          omega)]
    | false =>
      simp only [Bool.false_eq_true, if_false, List.append_nil] at hsplit
      rw [heof rfl, List.append_nil, hsplit]
      rw [hsplit] at hlen
      rw [readLine_eof 255 _ hpre (by omega)]
  · rw [processLine_line id pairs trail comment newline reqs hid.1 hp hn.1 hn.2 hroom]
    have hv : wrap32 id.value = id.value := wrap32_of_fits _ hid.2.1 hid.2.2
    have hmap : pairs.map (fun q => (wrap32 (wrap32 q.aisle.value - 1),
        wrap32 (wrap32 q.seat.value - 1))) = pairs.map SeatText.coords := by
      apply List.map_congr_left
      intro q hq
      obtain ⟨⟨_, ha, ha'⟩, ⟨_, hs, hs'⟩⟩ := hpairs q hq
      rw [wrap32_of_fits _ ha.1 ha.2, wrap32_of_fits _ hs.1 hs.2,
        wrap32_of_fits _ (by omega) (by have := ha.2; omega),
        wrap32_of_fits _ (by omega) (by have := hs.2; omega)]
      rfl
    rw [hv, hmap]

theorem parse_line_stores_request_witness :
    lineText sampleId samplePairs 1 (some ['h', 'i']) true = "7, 2 ,12,-3,05 #hi\n".toList ∧
      fgets 256 (lineText sampleId samplePairs 1 (some ['h', 'i']) true ++ "8,1,1\n".toList)
        = some (lineText sampleId samplePairs 1 (some ['h', 'i']) true, "8,1,1\n".toList) ∧
      processLine (lineText sampleId samplePairs 1 (some ['h', 'i']) true) []
        = some ([] ++ [⟨sampleId.value, samplePairs.map SeatText.coords⟩]) ∧
      (⟨sampleId.value, samplePairs.map SeatText.coords⟩ : BookingRequest)
        = ⟨7, [(1, 11), (-4, 4)]⟩ :=
  ⟨by decide,
   (parse_line_stores_request sampleId samplePairs 1 (some ['h', 'i']) true "8,1,1\n".toList []
      (by decide) (by decide) (by decide) (by decide)
      (fun c hc => by cases hc; decide) (fun h => absurd h (by decide)) (by decide)).1,
   (parse_line_stores_request sampleId samplePairs 1 (some ['h', 'i']) true "8,1,1\n".toList []
      (by decide) (by decide) (by decide) (by decide)
      (fun c hc => by cases hc; decide) (fun h => absurd h (by decide)) (by decide)).2,
   by decide⟩

set_option maxRecDepth 1000000 in
/-- C8 fails on the code: a file of 51 lines `1,1,1` makes the input loop store 51
requests, more than `MAX_CUSTOMERS = 50`, so the dispatcher loops use the index
50 on `threads` and `thread_ids`, one past the end of these arrays. -/
theorem fifty_one_requests_stored :
    parseInput (List.replicate 51 "1,1,1\n".toList).flatten
        = some (List.replicate 51 ⟨1, [(0, 0)]⟩) ∧
      MAX_CUSTOMERS < (List.replicate 51 (⟨1, [(0, 0)]⟩ : BookingRequest)).length ∧
      MAX_CUSTOMERS ∈ threadIndices (List.replicate 51 ⟨1, [(0, 0)]⟩) := by
  decide

end Theater
